import Mathlib

/-!
# RO-Crate Explorer — verification of the crate graph engine

A shallow embedding of the core of the `ro-crate-explorer` repository
(`src/App.vue`, `src/services/searchService.ts`, `src/services/crateLoader.ts`)
together with proofs and refutations of the specification claims.

JavaScript values are modelled by the inductive type `JsVal` (JSON values plus
`undefined`).  Machine-level aspects that the claims do not touch (locale
collation, the exact output of `JSON.stringify`, the Fuse.js scoring function)
are modelled by simple total stand-ins, each marked by a comment at its
definition.  External collaborators (network fetch, `jsonld.expand`, the
`ro-crate` library constructor, the WHATWG `URL` parser) are parameters of a
`World` record, mirroring the spec's "excluded collaborators" boundary.

Recursive walks over JSON values are expressed with an explicit fuel argument
(structural recursion on the fuel); wherever the source has an unbounded
recursion, a sufficiency lemma shows that the fuel chosen by the top-level
wrapper is never exhausted, so the wrapper denotes the source function exactly.
-/

/-! ## JavaScript values -/

/-- A JavaScript value as it can appear in the explorer's data flow:
the JSON values plus `undefined`. -/
inductive JsVal where
  | undef
  | null
  | str (s : String)
  | num (n : Int)
  | boolean (b : Bool)
  | arr (elems : List JsVal)
  | obj (fields : List (String × JsVal))
deriving Repr

/-- An entity / JS object: its ordered list of (key, value) fields. -/
abbrev Entity := List (String × JsVal)

/-- JavaScript truthiness. -/
def truthy : JsVal → Bool
  | .undef => false
  | .null => false
  | .str s => s ≠ ""
  | .num n => n ≠ 0
  | .boolean b => b
  | .arr _ => true
  | .obj _ => true

/-- Property read on an object's field list: `undefined` when the key is
absent.  JSON objects produced by `JSON.parse` have distinct keys, so
first-match lookup agrees with JS semantics. -/
def getProp (e : Entity) (k : String) : JsVal :=
  (List.lookup k e).getD JsVal.undef

/-- Member access `v[k]` (for a named, non-index key `k`) on a value that is
not `null`/`undefined`: an object yields its property, every other value
yields `undefined` (strings/arrays have no such named own properties). -/
def jsGet : JsVal → String → JsVal
  | .obj fs, k => getProp fs k
  | _, _ => JsVal.undef

/-- Does `v` hold exactly the string `t` (JS `v === "t"`)? -/
def isStrVal : JsVal → String → Bool
  | .str s, t => s = t
  | _, _ => false

/-- Is the value a string? -/
def isStr : JsVal → Bool
  | .str _ => true
  | _ => false

/-- JS strict equality `===`.  Primitives compare by value; two object (or
array) values coming from different data structures are distinct references,
hence non-equal — which is how the source uses it (comparing `@id` values
between a raw and an expanded document). -/
def jsStrictEq : JsVal → JsVal → Bool
  | .undef, .undef => true
  | .null, .null => true
  | .str a, .str b => a = b
  | .num a, .num b => a = b
  | .boolean a, .boolean b => a = b
  | _, _ => false

/-- Fuelled model of the JavaScript `String()` coercion (`Array.prototype.toString`
joins elements with a comma, `null`/`undefined` elements become empty). -/
def jsToStringFuel : Nat → JsVal → String
  | 0, _ => ""
  | _ + 1, .undef => "undefined"
  | _ + 1, .null => "null"
  | _ + 1, .str s => s
  | _ + 1, .num n => toString n
  | _ + 1, .boolean b => if b then "true" else "false"
  | f + 1, .arr xs => String.intercalate ","
      (xs.map (fun x => match x with
        | .null => ""
        | .undef => ""
        | v => jsToStringFuel f v))
  | _ + 1, .obj _ => "[object Object]"

/-- Model of the builtin `String()` coercion.  It is exact on every value of
nesting depth below 100; the code paths modelled never coerce deeper arrays to
strings, and no claim depends on the coerced text of a nested array. -/
def jsToString (v : JsVal) : String := jsToStringFuel 100 v

/-- `s.endsWith(t)` (kernel-computable replacement for `String.endsWith`). -/
def strEndsWith (s t : String) : Bool :=
  List.isSuffixOf t.data s.data

/-- `s.toLowerCase()` restricted to ASCII, which is all the source compares. -/
def lowerStr (s : String) : String :=
  String.mk (s.data.map Char.toLower)

/-- Append a trailing slash when absent: `u.endsWith("/") ? u : u + "/"`. -/
def ensureSlash (u : String) : String :=
  if strEndsWith u "/" then u else u ++ "/"

/-- Truthiness filter on an optional string (`null` and `""` are falsy). -/
def truthyOpt : Option String → Option String
  | some s => if s = "" then none else some s
  | none => none

/-! ## Flattener (`searchService.ts`, `flattenValue`)

The source bounds the recursion by `maxDepth` (default 10): calls with
`depth > maxDepth` contribute `''`.  We realise the recursion structurally on
the quantity `maxDepth + 1 - depth`, which the recursive call decrements;
`flattenValue_eq` below proves the definition satisfies the source's literal
defining equation. -/

def flattenFuel : Nat → JsVal → String
  | 0, _ => ""
  | _ + 1, .undef => ""
  | _ + 1, .null => ""
  | _ + 1, .str s => s
  | _ + 1, .num n => toString n
  | _ + 1, .boolean b => if b then "true" else "false"
  | f + 1, .arr xs =>
      String.intercalate " "
        ((xs.map (fun x => flattenFuel f x)).filter (fun s => s.length > 0))
  | f + 1, .obj fs =>
      String.intercalate " "
        (fs.foldr (fun kv acc =>
          if kv.1 ≠ "" && kv.1 ≠ "@context" then
            kv.1 :: (let fv := flattenFuel f kv.2; if fv ≠ "" then fv :: acc else acc)
          else acc) [])

/-- `flattenValue(value, depth, maxDepth)` from `searchService.ts`. -/
def flattenValue (v : JsVal) (depth : Nat) (maxDepth : Nat) : String :=
  flattenFuel (maxDepth + 1 - depth) v

/-- `flattenValue` satisfies the source's defining equation verbatim:
an immediate depth check, then stringification of primitives, space-joined
non-empty flattenings for arrays, and key-plus-value emission (skipping empty
keys and the `@context` key) for objects. -/
theorem flattenValue_eq (v : JsVal) (d m : Nat) :
    flattenValue v d m =
      if d > m then "" else
      match v with
      | .undef => ""
      | .null => ""
      | .str s => s
      | .num n => toString n
      | .boolean b => if b then "true" else "false"
      | .arr xs =>
          String.intercalate " "
            ((xs.map (fun x => flattenValue x (d + 1) m)).filter (fun s => s.length > 0))
      | .obj fs =>
          String.intercalate " "
            (fs.foldr (fun kv acc =>
              if kv.1 ≠ "" && kv.1 ≠ "@context" then
                kv.1 :: (let fv := flattenValue kv.2 (d + 1) m; if fv ≠ "" then fv :: acc else acc)
              else acc) []) := by
  unfold flattenValue
  rcases Nat.lt_or_ge m d with h | h
  · have h0 : m + 1 - d = 0 := by omega
    rw [h0]
    simp [flattenFuel, if_pos h]
  · have h2 : m + 1 - d = (m - d) + 1 := by omega
    have h3 : m + 1 - (d + 1) = m - d := by omega
    rw [h2, h3]
    have hnot : ¬ (d > m) := by omega
    rw [if_neg hnot]
    cases v <;> simp [flattenFuel]

/-- Whitespace normalisation `.replace(/\s+/g, ' ').trim()`. -/
def normalizeWs (s : String) : String :=
  String.intercalate " " ((splitOnWs s.data []).filter (fun w => w ≠ ""))
where
  /-- split a character list at whitespace runs -/
  splitOnWs : List Char → List Char → List String
    | [], acc => [String.mk acc.reverse]
    | c :: cs, acc =>
        if c.isWhitespace then String.mk acc.reverse :: splitOnWs cs []
        else splitOnWs cs (c :: acc)

/-- `extractSearchableContent(entity)`: every key except `@context` followed by
its non-empty flattened value, whitespace-normalised. -/
def extractSearchableContent (e : Entity) : String :=
  normalizeWs (String.intercalate " "
    (e.foldr (fun kv acc =>
      if kv.1 = "@context" then acc
      else kv.1 :: (let fv := flattenValue kv.2 0 10; if fv ≠ "" then fv :: acc else acc))
      []))

/-! ## Search index (`searchService.ts`) -/

/-- One entry of the search index. -/
structure SearchItem where
  entityId : JsVal
  crateId : String
  searchableContent : String
deriving Repr

/-- The module-level mutable state of `searchService.ts`: the Fuse.js instance
(modelled by the snapshot of entries it was built over, `none` when no instance
exists) and the raw `indexData` array. -/
structure SearchState where
  fuse : Option (List SearchItem)
  indexData : List SearchItem
deriving Repr

/-- Derive index entries from an entity array, mirroring the loop body shared
by `buildSearchIndex` and `addToIndex`: entities with a falsy `@id` are
skipped, entities with empty searchable content are omitted.  Reading
`entity['@id']` on a `null`/`undefined` array element throws a `TypeError`;
the returned flag is `false` in that case and the list holds the entries
pushed before the throw. -/
def deriveEntries : List JsVal → String → List SearchItem × Bool
  | [], _ => ([], true)
  | e :: rest, cid =>
    match e with
    | .null => ([], false)
    | .undef => ([], false)
    | .obj fs =>
      let entityId := getProp fs "@id"
      if truthy entityId then
        let content := extractSearchableContent fs
        let (tail, ok) := deriveEntries rest cid
        if content ≠ "" then (⟨entityId, cid, content⟩ :: tail, ok) else (tail, ok)
      else deriveEntries rest cid
    | _ => deriveEntries rest cid

/-- `buildSearchIndex(entities, crateId)`: clear `indexData`, refill it, build
a fresh Fuse instance.  When the loop throws, `indexData` keeps the partial
fill and the old instance survives (the flag reports completion). -/
def buildSearchIndex (entities : List JsVal) (crateId : String) (st : SearchState) :
    SearchState × Bool :=
  let (items, ok) := deriveEntries entities crateId
  if ok then (⟨some items, items⟩, true)
  else (⟨st.fuse, items⟩, false)

/-- `addToIndex(entities, crateId)`: with no instance yet, delegate to
`buildSearchIndex`; otherwise drop every entry of this `crateId`, append the
fresh ones and rebuild the instance. -/
def addToIndex (entities : List JsVal) (crateId : String) (st : SearchState) :
    SearchState × Bool :=
  match st.fuse with
  | none => buildSearchIndex entities crateId st
  | some _ =>
    let kept := st.indexData.filter (fun it => it.crateId ≠ crateId)
    let (items, ok) := deriveEntries entities crateId
    if ok then (⟨some (kept ++ items), kept ++ items⟩, true)
    else (⟨st.fuse, kept ++ items⟩, false)

/-- `clearSearchIndex()`. -/
def clearSearchIndex : SearchState := ⟨none, []⟩

/-! ## Loader validation (`crateLoader.ts`) -/

/-- Does the value have the named own property (the JS `in` operator)?
Arrays own only index/`length` keys, never the `@`-keys queried here. -/
def jsHasKey : JsVal → String → Bool
  | .obj fs, k => (List.lookup k fs).isSome
  | _, _ => false

/-- `entity?.['@id'] === './' || entity?.['@id'] === '.'` with optional
chaining, as used by the root-dataset check. -/
def isRootLikeJs (e : JsVal) : Bool :=
  match e with
  | .null => false
  | .undef => false
  | v => isStrVal (jsGet v "@id") "./" || isStrVal (jsGet v "@id") "."

/-- `validateRoCrateJson(data)` from `crateLoader.ts`. -/
def validateRoCrateJson (data : JsVal) : Except String Unit :=
  if ¬ (truthy data && typeofObject data) then
    .error "Invalid RO-Crate: data is not an object"
  else if ¬ jsHasKey data "@context" then
    .error "Invalid RO-Crate: missing @context"
  else if ¬ jsHasKey data "@graph" then
    .error "Invalid RO-Crate: missing @graph"
  else
    match jsGet data "@graph" with
    | .arr graph =>
      if graph.length = 0 then
        .error "Invalid RO-Crate: @graph is empty"
      else if graph.any isRootLikeJs then
        .ok ()
      else
        .error "Invalid RO-Crate: missing root dataset entity"
    | _ => .error "Invalid RO-Crate: @graph is not an array"
where
  /-- `typeof data === 'object'` (true for objects, arrays and `null`). -/
  typeofObject : JsVal → Bool
    | .obj _ => true
    | .arr _ => true
    | .null => true
    | _ => false

/-- The retrieval tail of `fetchCrateFromUrl`/`loadCrateFromFile`: once the
collaborator has produced parsed JSON `data`, validation either rejects it or
the function returns `data` itself. -/
def acceptFetchedCrate (data : JsVal) : Except String JsVal :=
  match validateRoCrateJson data with
  | .error e => .error e
  | .ok _ => .ok data

/-! ## Graph/Tree builder (`App.vue`, `fileTree` / `buildTree`) -/

/-- A node of the file tree (`TreeNode` in `App.vue`). -/
structure TreeNode where
  name : JsVal
  id : String
  type : JsVal
  children : List TreeNode
  data : Option Entity
deriving Repr

/-- How a `buildTree` run can fail to produce a tree: a `TypeError` raised by
`part["@id"]` on a `null`/`undefined` part element, or exhaustion of the
recursion fuel (`buildTree_no_fuelErr` shows the top-level fuel never runs
out). -/
inductive TreeErr
  | typeErr
  | fuelErr
deriving Repr, DecidableEq

/-- The id under which an entity is stored in `entityMap`
(`entityMap.set(entity["@id"], entity)`): only a string `@id` can ever be hit
by the string-typed lookups `buildTree` performs. -/
def entityIdStr (e : Entity) : Option String :=
  match List.lookup "@id" e with
  | some (.str s) => some s
  | _ => none

/-- `entityMap.get(entityId)`: of all entities whose `@id` is the string
`id`, the last one wins (later `Map.set` calls overwrite earlier ones). -/
def entityById (g : List Entity) (id : String) : Option Entity :=
  (g.filter (fun e => entityIdStr e == some id)).getLast?

/-- `const partId = part["@id"] ? part["@id"] : part;` followed by the
`typeof partId === "string"` guard.  A `null`/`undefined` part makes the
member access throw. -/
def partIdOf (part : JsVal) : Except TreeErr (Option String) :=
  match part with
  | .null => .error .typeErr
  | .undef => .error .typeErr
  | p =>
    let pid := if truthy (jsGet p "@id") then jsGet p "@id" else p
    match pid with
    | .str s => .ok (some s)
    | _ => .ok none

/-- The `parts.forEach` loop of `buildTree`, abstracted over the recursive
call: elements whose `partId` is not a string contribute nothing, and a
throwing element aborts the whole walk. -/
def buildKids (f : String → Except TreeErr TreeNode) :
    List JsVal → Except TreeErr (List TreeNode)
  | [] => .ok []
  | p :: ps =>
    match partIdOf p with
    | .error e => .error e
    | .ok none => buildKids f ps
    | .ok (some pid) => do
        let c ← f pid
        let rest ← buildKids f ps
        pure (c :: rest)

/-- `getNodeName(entity, id)`: a truthy `name` property wins (returned raw),
otherwise the last non-empty, non-`"."` path segment of the id, otherwise the
id itself. -/
def getNodeName (entity : Option Entity) (id : String) : JsVal :=
  let fallback := JsVal.str (((splitSlash id.data []).filter
      (fun p => p ≠ "" && p ≠ ".")).getLast?.getD id)
  match entity with
  | some e => if truthy (getProp e "name") then getProp e "name" else fallback
  | none => fallback
where
  /-- `id.split("/")` on the character list -/
  splitSlash : List Char → List Char → List String
    | [], acc => [String.mk acc.reverse]
    | c :: cs, acc =>
        if c = '/' then String.mk acc.reverse :: splitSlash cs []
        else splitSlash cs (c :: acc)

/-- The name of a loop-breaking node:
`getNodeName(entity, entityId) + " (Link)"` (JS string concatenation coerces
the left operand). -/
def linkNameOf (entity : Option Entity) (id : String) : JsVal :=
  .str (jsToString (getNodeName entity id) ++ " (Link)")

/-- Lexicographic order on character lists (stand-in for the locale order that
`localeCompare` applies to two strings; no claim depends on the particular
collation). -/
def charListLt : List Char → List Char → Bool
  | [], [] => false
  | [], _ :: _ => true
  | _ :: _, [] => false
  | a :: as, b :: bs => if a = b then charListLt as bs else a < b

/-- Model of `x.localeCompare(y)` for strings. -/
def localeCompareModel (x y : String) : Int :=
  if charListLt x.data y.data then -1 else if x = y then 0 else 1

/-- The value `.sort` compares on: a string name directly; the source would
throw `localeCompare` off a non-string name, which the model totalises via the
`String()` coercion (see `buildTree_ok_of_wellFormed`, whose name hypothesis
keeps the modelled runs inside the agreeing fragment). -/
def nameKey : JsVal → String
  | .str s => s
  | v => jsToString v

/-- The comparator of `children.sort(...)`: `Dataset` nodes first, then by
display name. -/
def childCompare (a b : TreeNode) : Int :=
  let aIsFolder := isStrVal a.type "Dataset"
  let bIsFolder := isStrVal b.type "Dataset"
  if aIsFolder && !bIsFolder then -1
  else if !aIsFolder && bIsFolder then 1
  else localeCompareModel (nameKey a.name) (nameKey b.name)

/-- Insertion into a sorted sibling list. -/
def insertSorted (x : TreeNode) : List TreeNode → List TreeNode
  | [] => [x]
  | y :: ys => if childCompare x y ≤ 0 then x :: y :: ys else y :: insertSorted x ys

/-- `children.sort(comparator)` (a sorted permutation; every claim proved here
is invariant under sibling permutation). -/
def sortChildren : List TreeNode → List TreeNode
  | [] => []
  | x :: xs => insertSorted x (sortChildren xs)

/-- `buildTree(entityId, visited)` over the entity map of graph `g`, with an
explicit recursion fuel (structural recursion; `buildTreeTop` supplies fuel
that `buildTree_no_fuelErr` proves sufficient).  The `visited` set is
path-local: each call extends a copy. -/
def buildTree (g : List Entity) : Nat → String → List String → Except TreeErr TreeNode
  | 0 => fun _ _ => .error .fuelErr
  | fuel + 1 => fun entityId visited =>
      let entity := entityById g entityId
      if visited.contains entityId then
        .ok ⟨linkNameOf entity entityId, entityId, .str "Link", [], entity⟩
      else
        let visited' := entityId :: visited
        let kidsRes :=
          match entity with
          | some e =>
            let hp := getProp e "hasPart"
            if truthy hp then
              let parts := match hp with | .arr xs => xs | v => [v]
              buildKids (fun pid => buildTree g fuel pid visited') parts
            else .ok []
          | none => .ok []
        match kidsRes with
        | .error er => .error er
        | .ok kids =>
          let children := sortChildren kids
          let typeStr :=
            match entity with
            | some e =>
              let t := getProp e "@type"
              if truthy t then (match t with | .arr xs => (xs.head?).getD .undef | v => v)
              else .str "File"
            | none => .str "Broken Link"
          .ok ⟨getNodeName entity entityId, entityId, typeStr, children, entity⟩

/-- The entry call `buildTree(rootEntity["@id"], new Set())`.  The fuel
`g.length + 1` strictly exceeds the number of ids in the map, which bounds the
recursion depth (each recursive level adds a fresh map id to `visited`). -/
def buildTreeTop (g : List Entity) (rootId : String) : Except TreeErr TreeNode :=
  buildTree g (g.length + 1) rootId []

/-- All root-to-leaf paths of a tree (each path listed root-first). -/
def rootPaths (t : TreeNode) : List (List TreeNode) :=
  match t.children with
  | [] => [[t]]
  | _ :: _ => (t.children.attach.map (fun c => (rootPaths c.1).map (t :: ·))).flatten
termination_by t
decreasing_by
  have h1 : sizeOf c.1 < sizeOf t.children := List.sizeOf_lt_of_mem c.2
  have h2 : sizeOf t.children < sizeOf t := by
    cases t; simp; omega
  omega

/-! ### Tree lemmas -/

theorem mem_insertSorted {x c : TreeNode} {l : List TreeNode} :
    c ∈ insertSorted x l ↔ c ∈ x :: l := by
  induction l with
  | nil => simp [insertSorted]
  | cons y ys ih =>
    simp only [insertSorted]
    split
    · exact Iff.rfl
    · simp only [List.mem_cons] at ih ⊢
      rw [ih]
      tauto

theorem mem_sortChildren {c : TreeNode} {l : List TreeNode} :
    c ∈ sortChildren l ↔ c ∈ l := by
  induction l with
  | nil => simp [sortChildren]
  | cons x xs ih =>
    simp only [sortChildren, mem_insertSorted, List.mem_cons, ih]

theorem mem_rootPaths {t : TreeNode} {p : List TreeNode} :
    p ∈ rootPaths t ↔
      (t.children = [] ∧ p = [t]) ∨
        ∃ c ∈ t.children, ∃ q ∈ rootPaths c, p = t :: q := by
  rw [rootPaths]
  rcases h : t.children with _ | ⟨c, cs⟩
  · simp [h]
  · simp only [List.mem_flatten, List.mem_map, List.mem_attach]
    constructor
    · rintro ⟨l, ⟨⟨d, hd⟩, ⟨_, rfl⟩⟩, hpl⟩
      simp only [List.mem_map] at hpl
      obtain ⟨q, hq, rfl⟩ := hpl
      exact Or.inr ⟨d, hd, q, hq, rfl⟩
    · rintro (⟨habs, _⟩ | ⟨d, hd, q, hq, rfl⟩)
      · simp at habs
      · exact ⟨(rootPaths d).map (t :: ·), ⟨⟨d, hd⟩, ⟨trivial, rfl⟩⟩, by
          simp only [List.mem_map]; exact ⟨q, hq, rfl⟩⟩

/-- The string ids present in the entity map. -/
def graphIds (g : List Entity) : List String := g.filterMap entityIdStr

/-- Number of map ids not yet on the current path: the quantity that bounds
the remaining recursion depth of `buildTree`. -/
def remainingIds (g : List Entity) (visited : List String) : Nat :=
  ((graphIds g).filter (fun i => ¬ visited.contains i)).length

theorem getLast?_mem_of_eq_some {α} {l : List α} {e : α}
    (h : l.getLast? = some e) : e ∈ l := by
  rcases l with _ | ⟨a, as⟩
  · simp at h
  · have hnil : a :: as ≠ [] := by simp
    rw [List.getLast?_eq_getLast _ hnil] at h
    have hm := List.getLast_mem hnil
    have he : (a :: as).getLast hnil = e := Option.some.injEq .. ▸ h
    exact he ▸ hm

theorem entityById_mem {g : List Entity} {id : String} {e : Entity}
    (h : entityById g id = some e) : e ∈ g ∧ id ∈ graphIds g := by
  unfold entityById at h
  have hmem := getLast?_mem_of_eq_some h
  rw [List.mem_filter] at hmem
  refine ⟨hmem.1, ?_⟩
  rw [graphIds, List.mem_filterMap]
  exact ⟨e, hmem.1, by simpa using hmem.2⟩

theorem countP_lt_of_strict {α} {p q : α → Bool} {l : List α}
    (hpq : ∀ x, q x = true → p x = true) {a : α}
    (ha : a ∈ l) (hpa : p a = true) (hqa : q a = false) :
    l.countP q < l.countP p := by
  induction l with
  | nil => simp at ha
  | cons b bs ih =>
    rw [List.countP_cons, List.countP_cons]
    rcases List.mem_cons.mp ha with rfl | hmem
    · have hmono : bs.countP q ≤ bs.countP p :=
        List.countP_mono_left (fun x _ h => hpq x h)
      have e1 : (if q a = true then 1 else 0) = 0 := by simp [hqa]
      have e2 : (if p a = true then 1 else 0) = 1 := by simp [hpa]
      omega
    · have hone : (if q b = true then 1 else 0) ≤ (if p b = true then 1 else 0) := by
        by_cases h : q b = true
        · simp [h, hpq b h]
        · simp [h]
      have := ih hmem
      omega

theorem remainingIds_lt {g : List Entity} {id : String} {visited : List String}
    (h1 : id ∈ graphIds g) (h2 : visited.contains id = false) :
    remainingIds g (id :: visited) < remainingIds g visited := by
  unfold remainingIds
  rw [← List.countP_eq_length_filter, ← List.countP_eq_length_filter]
  refine countP_lt_of_strict (fun x hx => ?_) h1 (by simpa using h2) (by simp)
  simp only [decide_eq_true_eq] at hx ⊢
  intro hc
  exact hx (by simp only [List.contains_cons, Bool.or_eq_true]; exact Or.inr hc)

/-- Success indicator for `Except`. -/
def isOkE {ε α : Type} : Except ε α → Bool
  | .ok _ => true
  | .error _ => false

theorem exists_ok_of_isOkE {ε α : Type} {r : Except ε α} (h : isOkE r = true) :
    ∃ t, r = .ok t := by
  cases r with
  | ok t => exact ⟨t, rfl⟩
  | error e => simp [isOkE] at h

/-- Part lists free of `null`/`undefined` elements: the condition under which
the `forEach` body of `buildTree` cannot throw. -/
def noNullParts (g : List Entity) : Bool :=
  g.all (fun e => match getProp e "hasPart" with
    | .arr xs => xs.all (fun x => match x with
        | .null => false
        | .undef => false
        | _ => true)
    | _ => true)

theorem partIdOf_ok {v : JsVal} (h1 : v ≠ .null) (h2 : v ≠ .undef) :
    ∃ r, partIdOf v = .ok r := by
  cases v with
  | null => exact absurd rfl h1
  | undef => exact absurd rfl h2
  | str s => exact ⟨some s, by simp [partIdOf, jsGet, truthy]⟩
  | num n => exact ⟨none, by simp [partIdOf, jsGet, truthy]⟩
  | boolean b => exact ⟨none, by simp [partIdOf, jsGet, truthy]⟩
  | arr xs => exact ⟨none, by simp [partIdOf, jsGet, truthy]⟩
  | obj fs =>
    simp only [partIdOf]
    rcases hx : (if truthy (jsGet (JsVal.obj fs) "@id") = true
        then jsGet (JsVal.obj fs) "@id" else JsVal.obj fs) with _ | _ | s | n | b | xs | gs <;>
      simp [hx]

theorem buildKids_isOk {f : String → Except TreeErr TreeNode}
    (hf : ∀ pid, isOkE (f pid) = true) :
    ∀ ps, (∀ x ∈ ps, x ≠ JsVal.null ∧ x ≠ JsVal.undef) →
      isOkE (buildKids f ps) = true := by
  intro ps
  induction ps with
  | nil => intro _; simp [buildKids, isOkE]
  | cons p ps ih =>
    intro hmem
    have hp := hmem p (by simp)
    obtain ⟨r, hr⟩ := partIdOf_ok hp.1 hp.2
    have hrest := ih (fun x hx => hmem x (by simp [hx]))
    cases r with
    | none => simpa [buildKids, hr] using hrest
    | some pid =>
      obtain ⟨c, hc⟩ := exists_ok_of_isOkE (hf pid)
      obtain ⟨cs, hcs⟩ := exists_ok_of_isOkE hrest
      simp only [buildKids, hr, hc, hcs]
      rfl

theorem noNullParts_entity {g : List Entity} {e : Entity}
    (hg : noNullParts g = true) (he : e ∈ g) (htr : truthy (getProp e "hasPart") = true) :
    ∀ x ∈ (match getProp e "hasPart" with | .arr xs => xs | v => [v]),
      x ≠ JsVal.null ∧ x ≠ JsVal.undef := by
  have hE := (List.all_eq_true.mp hg) e he
  rcases hhp : getProp e "hasPart" with _ | _ | s | n | b | xs | fs
  · rw [hhp] at htr; simp [truthy] at htr
  · rw [hhp] at htr; simp [truthy] at htr
  · intro x hx
    simp only [List.mem_singleton] at hx
    subst hx
    exact ⟨by simp, by simp⟩
  · intro x hx
    simp only [List.mem_singleton] at hx
    subst hx
    exact ⟨by simp, by simp⟩
  · intro x hx
    simp only [List.mem_singleton] at hx
    subst hx
    exact ⟨by simp, by simp⟩
  · intro x hx
    rw [hhp] at hE
    simp only at hE
    have := (List.all_eq_true.mp hE) x hx
    constructor <;> rintro rfl <;> simp at this
  · intro x hx
    simp only [List.mem_singleton] at hx
    subst hx
    exact ⟨by simp, by simp⟩

theorem buildTree_isOk :
    ∀ fuel (g : List Entity) (id : String) (visited : List String),
      remainingIds g visited < fuel → noNullParts g = true →
      isOkE (buildTree g fuel id visited) = true := by
  intro fuel
  induction fuel with
  | zero => intro g id visited h _; omega
  | succ fuel ih =>
    intro g id visited hrem hnull
    by_cases hv : visited.contains id
    · simp only [buildTree]
      rw [if_pos hv]
      rfl
    · have hv' : visited.contains id = false := by simpa using hv
      rcases hE : entityById g id with _ | e
      · simp only [buildTree, hE]
        rw [if_neg (by simpa using hv)]
        rfl
      · have hmem := entityById_mem hE
        have hlt : remainingIds g (id :: visited) < fuel := by
          have := remainingIds_lt hmem.2 hv'
          omega
        have hrec : ∀ pid, isOkE (buildTree g fuel pid (id :: visited)) = true :=
          fun pid => ih g pid (id :: visited) hlt hnull
        by_cases htr : truthy (getProp e "hasPart") = true
        · have hkids := buildKids_isOk hrec _ (noNullParts_entity hnull hmem.1 htr)
          obtain ⟨cs, hcs⟩ := exists_ok_of_isOkE hkids
          simp only [buildTree, hE]
          rw [if_neg (by simpa using hv)]
          rw [if_pos htr, hcs]
          rfl
        · have htr' : truthy (getProp e "hasPart") = false := by simpa using htr
          simp only [buildTree, hE]
          rw [if_neg (by simpa using hv)]
          rw [if_neg (by simp [htr'])]
          rfl

/-- The identifiers of the non-`Link` nodes along a path. -/
def nonLinkIds (p : List TreeNode) : List String :=
  (p.filter (fun n => ¬ isStrVal n.type "Link")).map (fun n => n.id)

theorem nonLinkIds_nil : nonLinkIds [] = [] := rfl

theorem nonLinkIds_cons (t : TreeNode) (q : List TreeNode) :
    nonLinkIds (t :: q) =
      if isStrVal t.type "Link" = true then nonLinkIds q else t.id :: nonLinkIds q := by
  cases hL : isStrVal t.type "Link" <;> simp [nonLinkIds, List.filter_cons, hL]

/-- The invariant threaded along a path: non-`Link` node ids are distinct and
avoid the identifiers already on the surrounding path. -/
def pathInv (visited : List String) (t : TreeNode) : Prop :=
  ∀ p ∈ rootPaths t, (nonLinkIds p).Nodup ∧ ∀ x ∈ nonLinkIds p, visited.contains x = false

theorem buildKids_inv {f : String → Except TreeErr TreeNode} {visited' : List String}
    (hf : ∀ pid t', f pid = .ok t' → pathInv visited' t') :
    ∀ ps cs, buildKids f ps = .ok cs → ∀ c ∈ cs, pathInv visited' c := by
  intro ps
  induction ps with
  | nil =>
    intro cs h c hc
    simp only [buildKids, Except.ok.injEq] at h
    subst h
    simp at hc
  | cons p ps ih =>
    intro cs h c hc
    simp only [buildKids] at h
    split at h
    · exact Except.noConfusion h
    · exact ih cs h c hc
    · rename_i pid heq
      simp only [bind, Except.bind] at h
      split at h
      · exact Except.noConfusion h
      · rename_i c0 hfp
        split at h
        · exact Except.noConfusion h
        · rename_i cs0 hk
          simp only [pure, Except.pure, Except.ok.injEq] at h
          subst h
          rcases List.mem_cons.mp hc with rfl | hc0
          · exact hf pid c hfp
          · exact ih cs0 hk c hc0

theorem buildTree_inv :
    ∀ fuel (g : List Entity) (id : String) (visited : List String) (t : TreeNode),
      buildTree g fuel id visited = .ok t → t.id = id ∧ pathInv visited t := by
  intro fuel
  induction fuel with
  | zero => intro g id visited t h; cases h
  | succ fuel ih =>
    intro g id visited t h
    simp only [buildTree] at h
    split at h
    · -- visited hit: terminal Link node
      rename_i hv
      rw [Except.ok.injEq] at h
      subst h
      refine ⟨rfl, fun p hp => ?_⟩
      rw [mem_rootPaths] at hp
      rcases hp with ⟨_, rfl⟩ | ⟨c, hc, _⟩
      · simp [nonLinkIds_cons, nonLinkIds_nil, isStrVal]
      · simp at hc
    · rename_i hv
      have hvc : visited.contains id = false := by simpa using hv
      split at h
      · exact Except.noConfusion h
      · rename_i kids hk
        have hkids : ∀ c ∈ kids, pathInv (id :: visited) c := by
          split at hk
          · rename_i e hE
            split at hk
            · exact buildKids_inv (fun pid t' hft => (ih g pid (id :: visited) t' hft).2) _ _ hk
            · rw [Except.ok.injEq] at hk
              subst hk
              intro c hc
              simp at hc
          · rw [Except.ok.injEq] at hk
            subst hk
            intro c hc
            simp at hc
        rw [Except.ok.injEq] at h
        subst h
        refine ⟨rfl, fun p hp => ?_⟩
        rw [mem_rootPaths] at hp
        rcases hp with ⟨_, rfl⟩ | ⟨c, hc, q, hq, rfl⟩
        · rw [nonLinkIds_cons, nonLinkIds_nil]
          split_ifs
          · simp
          · refine ⟨by simp, fun x hx => ?_⟩
            simp only [List.mem_singleton] at hx
            subst hx
            exact hvc
        · have hck : c ∈ kids := mem_sortChildren.mp hc
          have hqinv := hkids c hck q hq
          rw [nonLinkIds_cons]
          split_ifs
          · refine ⟨hqinv.1, fun x hx => ?_⟩
            have := hqinv.2 x hx
            simp only [List.contains_cons, Bool.or_eq_false_iff] at this
            exact this.2
          · constructor
            · rw [List.nodup_cons]
              refine ⟨fun hmem => ?_, hqinv.1⟩
              have := hqinv.2 _ hmem
              simp at this
            · intro x hx
              rcases List.mem_cons.mp hx with rfl | hx0
              · exact hvc
              · have := hqinv.2 x hx0
                simp only [List.contains_cons, Bool.or_eq_false_iff] at this
                exact this.2

/-- `entityIdStr e` is one of the two root spellings. -/
def isRootEntity (e : Entity) : Bool :=
  entityIdStr e == some "./" || entityIdStr e == some "."

/-- Every truthy `name` property in the graph is a string.  The model's
comparator totalises `localeCompare`; under this condition it agrees with the
source, which would throw `localeCompare` off a non-string name. -/
def namesOk (g : List Entity) : Bool :=
  g.all (fun e => !truthy (getProp e "name") || isStr (getProp e "name"))

/-- Claim C1 (amended): root id correctness plus cycle safety for the ids of
non-`Link` nodes. -/
theorem buildTree_rootId_and_cycle_safety
    (g : List Entity) (root : Entity) (rootId : String)
    (_huniq : g.filter isRootEntity = [root])
    (_hid : entityIdStr root = some rootId)
    (hnull : noNullParts g = true)
    (_hnames : namesOk g = true) :
    ∃ t, buildTreeTop g rootId = .ok t ∧ t.id = rootId ∧
      ∀ p ∈ rootPaths t, (nonLinkIds p).Nodup := by
  have hrem : remainingIds g [] < g.length + 1 := by
    unfold remainingIds graphIds
    have h1 : ((g.filterMap entityIdStr).filter
        (fun i => ¬ ([] : List String).contains i)).length ≤
        (g.filterMap entityIdStr).length := List.length_filter_le _ _
    have h2 : (g.filterMap entityIdStr).length ≤ g.length := List.length_filterMap_le _ _
    omega
  obtain ⟨t, ht⟩ := exists_ok_of_isOkE (buildTree_isOk (g.length + 1) g rootId [] hrem hnull)
  have hinv := buildTree_inv (g.length + 1) g rootId [] t ht
  exact ⟨t, ht, hinv.1, fun p hp => (hinv.2 p hp).1⟩

def c1Entity : Entity := [("@id", .str "./"), ("hasPart", .arr [.obj [("@id", .str "./")]])]

def c1Graph : List Entity := [c1Entity]

def c1Link : TreeNode := ⟨.str "./ (Link)", "./", .str "Link", [], some c1Entity⟩

def c1Tree : TreeNode := ⟨.str "./", "./", .str "File", [c1Link], some c1Entity⟩

/-- Claim C1 (counterexample). -/
theorem buildTree_link_repeat_counterexample :
    c1Graph.filter isRootEntity = [c1Entity] ∧
    buildTreeTop c1Graph "./" = .ok c1Tree ∧
    [c1Tree, c1Link] ∈ rootPaths c1Tree ∧
    ¬ ([c1Tree, c1Link].map (fun n => n.id)).Nodup := by
  refine ⟨rfl, rfl, ?_, by decide⟩
  rw [mem_rootPaths]
  right
  refine ⟨c1Link, by simp [c1Tree], [c1Link], ?_, rfl⟩
  rw [mem_rootPaths]
  left
  exact ⟨rfl, rfl⟩

def c1wGraph : List Entity :=
  [[("@id", .str "./"), ("hasPart", .arr [.obj [("@id", .str "a.txt")]])],
   [("@id", .str "a.txt"), ("@type", .str "File")]]

/-- Claim C1 (witness). -/
theorem buildTree_rootId_and_cycle_safety_witness :
    c1wGraph.filter isRootEntity = [c1wGraph.head!] ∧
    entityIdStr c1wGraph.head! = some "./" ∧
    noNullParts c1wGraph = true ∧
    namesOk c1wGraph = true ∧
    (∃ t, buildTreeTop c1wGraph "./" = .ok t ∧ t.id = "./" ∧
      ∀ p ∈ rootPaths t, (nonLinkIds p).Nodup) :=
  ⟨rfl, rfl, rfl, rfl,
    buildTree_rootId_and_cycle_safety c1wGraph c1wGraph.head! "./" rfl rfl rfl rfl⟩

/-- Claim C9: the single self-referencing root entity
`{"@id":"x","hasPart":[{"@id":"x"}]}` yields a root node `"x"` with exactly
one child, a terminal `Link` node with id `"x"` and no children. -/
theorem buildTree_self_loop_scenario :
    ∃ t, buildTreeTop [[("@id", JsVal.str "x"),
        ("hasPart", JsVal.arr [.obj [("@id", .str "x")]])]] "x" = .ok t ∧
      t.id = "x" ∧
      t.children.map (fun c => (c.id, c.type, c.children)) = [("x", JsVal.str "Link", [])] :=
  ⟨⟨.str "x", "x", .str "File",
      [⟨.str "x (Link)", "x", .str "Link", [],
        some [("@id", .str "x"), ("hasPart", .arr [.obj [("@id", .str "x")]])]⟩],
      some [("@id", .str "x"), ("hasPart", .arr [.obj [("@id", .str "x")]])]⟩,
    rfl, rfl, rfl⟩

/-- Is the value an object whose `@id` property is a string? -/
def isObjWithStrId : JsVal → Bool
  | .obj fs => isStr (getProp fs "@id")
  | _ => false

/-- Claim C10: a part-list element that is not `null`/`undefined`, not a
string, and not an object whose `@id` is a string reduces to a non-string
`partId` and is dropped: it contributes no child node (and no `BrokenLink`)
to any `buildTree` walk. -/
theorem buildTree_drops_nonstring_parts (bad : JsVal)
    (h1 : bad ≠ .null) (h2 : bad ≠ .undef)
    (h3 : isStr bad = false) (h4 : isObjWithStrId bad = false) :
    partIdOf bad = .ok none ∧
    ∀ (f : String → Except TreeErr TreeNode) (ps1 ps2 : List JsVal),
      buildKids f (ps1 ++ bad :: ps2) = buildKids f (ps1 ++ ps2) := by
  have hpid : partIdOf bad = .ok none := by
    cases bad with
    | null => exact absurd rfl h1
    | undef => exact absurd rfl h2
    | str s => simp [isStr] at h3
    | num n => simp [partIdOf, jsGet, truthy]
    | boolean b => simp [partIdOf, jsGet, truthy]
    | arr xs => simp [partIdOf, jsGet, truthy]
    | obj fs =>
      simp only [isObjWithStrId] at h4
      rcases hx : getProp fs "@id" with _ | _ | s | n | b | xs | gs
      · simp [partIdOf, jsGet, hx, truthy]
      · simp [partIdOf, jsGet, hx, truthy]
      · rw [hx] at h4; simp [isStr] at h4
      · simp only [partIdOf, jsGet, hx, truthy]
        split
        · rename_i heq
          split_ifs at heq
        · rfl
      · simp only [partIdOf, jsGet, hx, truthy]
        split
        · rename_i heq
          split_ifs at heq
        · rfl
      · simp [partIdOf, jsGet, hx, truthy]
      · simp [partIdOf, jsGet, hx, truthy]
  refine ⟨hpid, fun f ps1 ps2 => ?_⟩
  induction ps1 with
  | nil => simp only [List.nil_append, buildKids, hpid]
  | cons q qs ih =>
    simp only [List.cons_append, buildKids, List.append_eq]
    rw [ih]

/-- Claim C10 (witness): the concrete non-null, non-string element `7`. -/
theorem buildTree_drops_nonstring_parts_witness :
    (JsVal.num 7 ≠ .null) ∧ (JsVal.num 7 ≠ .undef) ∧
    isStr (.num 7) = false ∧ isObjWithStrId (.num 7) = false ∧
    partIdOf (.num 7) = .ok none ∧
    buildKids (fun pid => buildTree c1wGraph 3 pid []) [.num 7, .str "a.txt"] =
      buildKids (fun pid => buildTree c1wGraph 3 pid []) [.str "a.txt"] := by
  have h := buildTree_drops_nonstring_parts (.num 7)
    (by simp) (by simp) rfl rfl
  exact ⟨by simp, by simp, rfl, rfl, h.1,
    h.2 (fun pid => buildTree c1wGraph 3 pid []) [] [.str "a.txt"]⟩

/-- Claim C8: flattening contributes nothing beyond the depth bound — a call
whose depth exceeds `maxDepth` returns the empty string (totality itself holds
by construction: `flattenValue` is a total Lean function on all JSON values,
cf. `flattenValue_eq` for its source-shaped defining equation). -/
theorem flattenValue_beyond_bound (v : JsVal) (d m : Nat) (h : m < d) :
    flattenValue v d m = "" := by
  unfold flattenValue
  have h0 : m + 1 - d = 0 := by omega
  rw [h0]
  cases v <;> rfl

/-- Claim C8 (witness): a deeply nested mixed-typed value at depth 11 with the
source's bound 10. -/
theorem flattenValue_beyond_bound_witness :
    10 < 11 ∧
    flattenValue (.arr [.obj [("k", .null)], .str "deep", .num 3, .boolean true]) 11 10 = "" :=
  ⟨by decide, flattenValue_beyond_bound _ 11 10 (by decide)⟩

/-! ## Claim C7: loader validation -/

/-- The spec-side acceptance predicate, following the claim's words with
"exactly one" relaxed to "at least one": the data is an object that contains a
context, a non-empty graph array, and at least one entity whose identifier is
`"./"` or `"."`. -/
def specAcceptedCrate (d : JsVal) : Bool :=
  (match d with | .obj _ => true | .arr _ => true | _ => false) &&
  jsHasKey d "@context" && jsHasKey d "@graph" &&
  (match jsGet d "@graph" with
   | .arr g => decide (0 < g.length) && g.any isRootLikeJs
   | _ => false)

/-- The claim's original acceptance predicate, requiring exactly one root
entity. -/
def specAcceptedCrateExactlyOne (d : JsVal) : Bool :=
  (match d with | .obj _ => true | .arr _ => true | _ => false) &&
  jsHasKey d "@context" && jsHasKey d "@graph" &&
  (match jsGet d "@graph" with
   | .arr g => decide (0 < g.length) && decide (g.countP isRootLikeJs = 1)
   | _ => false)

/-- Claim C7 (amended): fetching succeeds exactly on data that is an object
with a context, a non-empty graph array, and at least one root-identified
entity. -/
theorem validate_iff_specAccepted (d : JsVal) :
    isOkE (acceptFetchedCrate d) = specAcceptedCrate d := by
  cases d with
  | undef => rfl
  | null => rfl
  | str s =>
    simp [acceptFetchedCrate, validateRoCrateJson, specAcceptedCrate,
      validateRoCrateJson.typeofObject, truthy, isOkE]
  | num n =>
    simp [acceptFetchedCrate, validateRoCrateJson, specAcceptedCrate,
      validateRoCrateJson.typeofObject, truthy, isOkE]
  | boolean b =>
    cases b <;> rfl
  | arr xs => rfl
  | obj fs =>
    simp only [acceptFetchedCrate, validateRoCrateJson, specAcceptedCrate,
      validateRoCrateJson.typeofObject, truthy, jsHasKey, jsGet, getProp]
    rcases hctx : List.lookup "@context" fs with _ | c
    · simp [isOkE]
    · rcases hgr : List.lookup "@graph" fs with _ | v
      · simp [isOkE]
      · simp only [Option.isSome_some, Option.getD_some]
        rcases v with _ | _ | s | n | b | xs | gs
        all_goals try (simp [isOkE]; done)
        rcases xs with _ | ⟨x, xs⟩
        · simp [isOkE]
        · cases hany : (x :: xs).any isRootLikeJs <;>
            simp only [List.any_cons, Bool.or_eq_true, List.any_eq_true] at hany <;>
            simp [isOkE, hany]

def c7TwoRoots : JsVal :=
  .obj [("@context", .str "ctx"),
        ("@graph", .arr [.obj [("@id", .str "./")], .obj [("@id", .str ".")]])]

/-- Claim C7 (counterexample): a crate with two root-spelled entities is
accepted by `validateRoCrateJson` (and returned as-is), refuting the
"exactly one" reading of the claim. -/
theorem validate_exactlyOne_counterexample :
    acceptFetchedCrate c7TwoRoots = .ok c7TwoRoots ∧
    specAcceptedCrateExactlyOne c7TwoRoots = false :=
  ⟨rfl, rfl⟩

/-! ## Claim C2: per-crate index replacement -/

/-- Graph arrays whose elements are all objects (the data-model notion of an
entity list; rules out the `TypeError` on `null` elements). -/
def allObjEntries (es : List JsVal) : Bool :=
  es.all (fun e => match e with | .obj _ => true | _ => false)

theorem deriveEntries_crateId :
    ∀ (es : List JsVal) (cid : String), ∀ it ∈ (deriveEntries es cid).1, it.crateId = cid := by
  intro es cid
  induction es with
  | nil => simp [deriveEntries]
  | cons e es ih =>
    intro it hit
    rcases e with _ | _ | s | n | b | xs | fs
    · simp [deriveEntries] at hit
    · simp [deriveEntries] at hit
    · exact ih it (by simpa [deriveEntries] using hit)
    · exact ih it (by simpa [deriveEntries] using hit)
    · exact ih it (by simpa [deriveEntries] using hit)
    · exact ih it (by simpa [deriveEntries] using hit)
    · simp only [deriveEntries] at hit
      split at hit
      · rcases hde : deriveEntries es cid with ⟨tail, ok⟩
        rw [hde] at hit
        split at hit
        · rcases List.mem_cons.mp hit with rfl | h0
          · rfl
          · exact ih it (by rw [hde]; exact h0)
        · exact ih it (by rw [hde]; exact hit)
      · exact ih it hit

theorem deriveEntries_ok {es : List JsVal} {cid : String}
    (h : allObjEntries es = true) : (deriveEntries es cid).2 = true := by
  induction es with
  | nil => rfl
  | cons e es ih =>
    have he := (List.all_eq_true.mp h) e (by simp)
    have hrest : allObjEntries es = true :=
      List.all_eq_true.mpr (fun x hx => (List.all_eq_true.mp h) x (by simp [hx]))
    rcases e with _ | _ | s | n | b | xs | fs
    · simp at he
    · simp at he
    · simpa [deriveEntries] using ih hrest
    · simpa [deriveEntries] using ih hrest
    · simpa [deriveEntries] using ih hrest
    · simpa [deriveEntries] using ih hrest
    · simp only [deriveEntries]
      split
      · rcases hde : deriveEntries es cid with ⟨tail, ok⟩
        have : ok = true := by
          have := ih hrest
          rw [hde] at this
          exact this
        subst this
        split <;> rfl
      · exact ih hrest

/-- Claim C2: `addToIndex(E1, A)` then `addToIndex(E2, A)` leaves, under
crate id `A`, exactly the entries derived from `E2`, and leaves the entries
of every other crate id exactly as the first call left them. -/
theorem addToIndex_replaces_per_crate
    (E1 E2 : List JsVal) (A : String) (s0 : SearchState)
    (h1 : allObjEntries E1 = true) (h2 : allObjEntries E2 = true) :
    ((addToIndex E2 A (addToIndex E1 A s0).1).1.indexData.filter
        (fun it => it.crateId = A)) = (deriveEntries E2 A).1 ∧
    ((addToIndex E2 A (addToIndex E1 A s0).1).1.indexData.filter
        (fun it => it.crateId ≠ A)) =
      ((addToIndex E1 A s0).1.indexData.filter (fun it => it.crateId ≠ A)) := by
  have hfuse1 : ∃ d, (addToIndex E1 A s0).1.fuse = some d := by
    unfold addToIndex buildSearchIndex
    rcases s0.fuse with _ | f
    · simp only
      rcases hde : deriveEntries E1 A with ⟨items, ok⟩
      have hok : ok = true := by
        have hoks : (deriveEntries E1 A).2 = true := deriveEntries_ok h1
        rw [hde] at hoks
        exact hoks
      subst hok
      exact ⟨items, rfl⟩
    · simp only
      rcases hde : deriveEntries E2 A with ⟨items, ok⟩
      rcases hde1 : deriveEntries E1 A with ⟨items1, ok1⟩
      have hok : ok1 = true := by
        have hoks : (deriveEntries E1 A).2 = true := deriveEntries_ok h1
        rw [hde1] at hoks
        exact hoks
      subst hok
      simp only [if_true]
      exact ⟨_, rfl⟩
  obtain ⟨d, hd⟩ := hfuse1
  have hde2 : (deriveEntries E2 A).2 = true := deriveEntries_ok h2
  have hstep : (addToIndex E2 A (addToIndex E1 A s0).1).1.indexData =
      ((addToIndex E1 A s0).1.indexData.filter (fun it => it.crateId ≠ A)) ++
        (deriveEntries E2 A).1 := by
    generalize hs1 : (addToIndex E1 A s0).1 = s1 at hd ⊢
    unfold addToIndex
    rw [hd]
    rcases hde : deriveEntries E2 A with ⟨items2, ok2⟩
    have : ok2 = true := by rw [hde] at hde2; exact hde2
    subst this
    simp
  rw [hstep]
  constructor
  · rw [List.filter_append]
    have hkept : (((addToIndex E1 A s0).1.indexData.filter
        (fun it => it.crateId ≠ A)).filter (fun it => it.crateId = A)) = [] := by
      rw [List.filter_filter]
      apply List.filter_eq_nil_iff.mpr
      intro it _
      simp
    have hitems : ((deriveEntries E2 A).1.filter (fun it => it.crateId = A)) =
        (deriveEntries E2 A).1 := by
      apply List.filter_eq_self.mpr
      intro it hit
      simpa using deriveEntries_crateId E2 A it hit
    rw [hkept, hitems, List.nil_append]
  · rw [List.filter_append]
    have hitems : ((deriveEntries E2 A).1.filter (fun it => it.crateId ≠ A)) = [] := by
      apply List.filter_eq_nil_iff.mpr
      intro it hit
      have := deriveEntries_crateId E2 A it hit
      simp [this]
    have hkept : (((addToIndex E1 A s0).1.indexData.filter
        (fun it => it.crateId ≠ A)).filter (fun it => it.crateId ≠ A)) =
        ((addToIndex E1 A s0).1.indexData.filter (fun it => it.crateId ≠ A)) := by
      rw [List.filter_filter]
      apply List.filter_congr
      intro it _
      simp
    rw [hitems, hkept, List.append_nil]

/-- Claim C2 (witness): two concrete entity lists indexed under `"A"` over a
state holding an entry of crate `"B"`. -/
theorem addToIndex_replaces_per_crate_witness :
    allObjEntries [JsVal.obj [("@id", .str "e1"), ("name", .str "one")]] = true ∧
    allObjEntries [JsVal.obj [("@id", .str "e2"), ("name", .str "two")]] = true ∧
    (((addToIndex [JsVal.obj [("@id", .str "e2"), ("name", .str "two")]] "A"
        (addToIndex [JsVal.obj [("@id", .str "e1"), ("name", .str "one")]] "A"
          ⟨some [⟨.str "b", "B", "b data"⟩], [⟨.str "b", "B", "b data"⟩]⟩).1).1.indexData.filter
        (fun it => it.crateId = "A")) =
      (deriveEntries [JsVal.obj [("@id", .str "e2"), ("name", .str "two")]] "A").1) ∧
    (((addToIndex [JsVal.obj [("@id", .str "e2"), ("name", .str "two")]] "A"
        (addToIndex [JsVal.obj [("@id", .str "e1"), ("name", .str "one")]] "A"
          ⟨some [⟨.str "b", "B", "b data"⟩], [⟨.str "b", "B", "b data"⟩]⟩).1).1.indexData.filter
        (fun it => it.crateId ≠ "A")) =
      ((addToIndex [JsVal.obj [("@id", .str "e1"), ("name", .str "one")]] "A"
          ⟨some [⟨.str "b", "B", "b data"⟩], [⟨.str "b", "B", "b data"⟩]⟩).1.indexData.filter
        (fun it => it.crateId ≠ "A"))) := by
  have h := addToIndex_replaces_per_crate
    [JsVal.obj [("@id", .str "e1"), ("name", .str "one")]]
    [JsVal.obj [("@id", .str "e2"), ("name", .str "two")]] "A"
    ⟨some [⟨.str "b", "B", "b data"⟩], [⟨.str "b", "B", "b data"⟩]⟩ rfl rfl
  exact ⟨rfl, rfl, h.1, h.2⟩

/-! ## Link-Hint resolver (`App.vue`, `buildLinkedDataHints`) -/

/-- The per-property hint: the expanded property IRI (when expansion produced
one) and the entity ids referenced by the property's expanded values. -/
structure LinkHint where
  propIri : Option String
  valueIris : List String
deriving Repr, DecidableEq

/-- The hints structure `hints[entityId][propName]`, as an insertion-ordered
list of assignments (`hintsLookup` applies the JS last-assignment-wins
semantics). -/
abbrev Hints := List (String × List (String × LinkHint))

/-- `expandProperty(propName)`: run the expansion collaborator on the one-key
probe document and read back the first non-`@` key of the first expanded
node.  The per-document `propertyCache` is semantically transparent (the
probe is a pure collaborator), so the memoisation is not modelled. -/
def expandPropertyIri (probe : JsVal → String → Except Unit (List Entity))
    (context : JsVal) (propName : String) : Option String :=
  match probe context propName with
  | .error _ => none
  | .ok expanded =>
    ((expanded.head?.getD []).map Prod.fst).find? (fun k => ¬ strStartsWith k "@")
where
  strStartsWith (s t : String) : Bool := List.isPrefixOf t.data s.data

/-- The value-IRI extraction: with a truthy `propIri` whose expanded node
property is an array, keep the string `@id` of every object-typed value. -/
def valueIrisFor (propIri : Option String) (expandedNode : Entity) : List String :=
  match propIri with
  | some iri =>
    if iri ≠ "" then
      match getProp expandedNode iri with
      | .arr vs => vs.filterMap (fun v =>
          match v with
          | .null => none
          | .undef => none
          | x => match jsGet x "@id" with
            | .str s => some s
            | _ => none)
      | _ => []
    else []
  | none => []

/-- `Object.keys(entity)` for the graph elements reached by the hints loop
(non-objects own no named keys in the data model's documents). -/
def fieldsOf : JsVal → List String
  | .obj fs => fs.map Prod.fst
  | _ => []

/-- The body of the per-entity loop: the entity's hint entry
`hints[entity["@id"]]`. -/
def entityHints (probe : JsVal → String → Except Unit (List Entity))
    (context : JsVal) (expandedNodes : List Entity) (e : JsVal) :
    String × List (String × LinkHint) :=
  let vid := jsGet e "@id"
  let expandedNode :=
    (expandedNodes.find? (fun n => jsStrictEq (getProp n "@id") vid)).getD []
  let props := (fieldsOf e).filter (fun k => k ≠ "@id" && k ≠ "@type")
  (jsToString vid, props.map (fun p =>
    let propIri := expandPropertyIri probe context p
    (p, ⟨propIri, valueIrisFor propIri expandedNode⟩)))

/-- The `for (const entity of json["@graph"] || [])` loop; reading
`entity["@id"]` off a `null`/`undefined` element throws. -/
def hintsLoop (probe : JsVal → String → Except Unit (List Entity))
    (context : JsVal) (expandedNodes : List Entity) :
    List JsVal → Except Unit Hints
  | [] => .ok []
  | e :: rest =>
    match e with
    | .null => .error ()
    | .undef => .error ()
    | v =>
      match hintsLoop probe context expandedNodes rest with
      | .error x => .error x
      | .ok tail => .ok (entityHints probe context expandedNodes v :: tail)

/-- `json["@graph"] || []` followed by iteration: falsy graphs iterate
nothing; a truthy non-array graph is not iterable (a string graph, which JS
would iterate characterwise, lies outside the data-model documents the claims
quantify over and is conservatively mapped to the throwing case). -/
def graphListOf (j : JsVal) : Except Unit (List JsVal) :=
  let g := jsGet j "@graph"
  if ¬ truthy g then .ok []
  else match g with
    | .arr xs => .ok xs
    | _ => .error ()

/-- `buildLinkedDataHints(json, expandedNodes)` from `App.vue`. -/
def buildLinkedDataHints (probe : JsVal → String → Except Unit (List Entity))
    (json : JsVal) (expandedNodes : List Entity) : Except Unit Hints :=
  match json with
  | .null => .error ()
  | .undef => .error ()
  | j =>
    let context := jsGet j "@context"
    if ¬ truthy context then .ok []
    else
      match graphListOf j with
      | .error x => .error x
      | .ok graph => hintsLoop probe context expandedNodes graph

/-- A document with the data-model shape: a context value and a graph of
entities. -/
def docOf (ctx : JsVal) (graph : List Entity) : JsVal :=
  .obj [("@context", ctx), ("@graph", .arr (graph.map JsVal.obj))]

theorem hintsLoop_entities (probe : JsVal → String → Except Unit (List Entity))
    (ctx : JsVal) (exp : List Entity) (graph : List Entity) :
    hintsLoop probe ctx exp (graph.map JsVal.obj) =
      .ok (graph.map (fun e => entityHints probe ctx exp (JsVal.obj e))) := by
  induction graph with
  | nil => rfl
  | cons e es ih => simp [hintsLoop, ih]

/-- The closed form of `buildLinkedDataHints` on data-model documents. -/
theorem buildLinkedDataHints_shape (probe : JsVal → String → Except Unit (List Entity))
    (ctx : JsVal) (graph : List Entity) (exp : List Entity) :
    buildLinkedDataHints probe (docOf ctx graph) exp =
      .ok (if truthy ctx = true
        then graph.map (fun e => entityHints probe ctx exp (JsVal.obj e))
        else []) := by
  have hctx : jsGet (docOf ctx graph) "@context" = ctx := rfl
  have hgraph : jsGet (docOf ctx graph) "@graph" = .arr (graph.map JsVal.obj) := by
    simp [docOf, jsGet, getProp, List.lookup]
  cases htr : truthy ctx with
  | false =>
    simp only [buildLinkedDataHints, docOf]
    rw [if_pos]
    · simp
    · change ¬ truthy (jsGet (docOf ctx graph) "@context") = true
      rw [hctx, htr]
      simp
  | true =>
    simp only [buildLinkedDataHints, docOf]
    rw [if_neg]
    · have hgl : graphListOf (docOf ctx graph) = .ok (graph.map JsVal.obj) := by
        unfold graphListOf
        rw [hgraph]
        simp [truthy]
      rw [show graphListOf (JsVal.obj [("@context", ctx), ("@graph", .arr (graph.map JsVal.obj))]) = .ok (graph.map JsVal.obj) from hgl]
      simp [hintsLoop_entities, htr, jsGet, getProp, List.lookup]
    · change ¬ ¬ truthy (jsGet (docOf ctx graph) "@context") = true
      rw [hctx, htr]
      simp

/-- The last `hints[id] = ...` assignment wins. -/
def entryLookupLast : Hints → String → Option (List (String × LinkHint))
  | [], _ => none
  | kv :: rest, id =>
    match entryLookupLast rest id with
    | some r => some r
    | none => if kv.1 = id then some kv.2 else none

/-- The last property entry wins within one entity's hint object. -/
def propLookupLast : List (String × LinkHint) → String → Option LinkHint
  | [], _ => none
  | pe :: rest, p =>
    match propLookupLast rest p with
    | some r => some r
    | none => if pe.1 = p then some pe.2 else none

/-- Reading `hints[id][p]` with JS object-assignment semantics. -/
def hintsLookup (h : Hints) (id p : String) : Option LinkHint :=
  match entryLookupLast h id with
  | none => none
  | some entries => propLookupLast entries p

/-- The object key under which an entity's hints are stored
(`hints[entity["@id"]]`; JS coerces the key to a string). -/
def idKeyOf (e : Entity) : String := jsToString (jsGet (JsVal.obj e) "@id")

/-- The properties the resolver iterates for an entity. -/
def propsOf (e : Entity) : List String :=
  (e.map Prod.fst).filter (fun k => k ≠ "@id" && k ≠ "@type")

theorem entryLookupLast_none {f : Entity → String × List (String × LinkHint)}
    {gs : List Entity} {k : String} (h : ∀ e ∈ gs, (f e).1 ≠ k) :
    entryLookupLast (gs.map f) k = none := by
  induction gs with
  | nil => rfl
  | cons g gs ih =>
    simp only [List.map_cons, entryLookupLast]
    rw [ih (fun e he => h e (by simp [he]))]
    simp [h g (by simp)]

theorem entryLookupLast_unique {f : Entity → String × List (String × LinkHint)}
    {graph : List Entity} {e : Entity}
    (hnd : (graph.map (fun x => (f x).1)).Nodup) (he : e ∈ graph) :
    entryLookupLast (graph.map f) ((f e).1) = some (f e).2 := by
  induction graph with
  | nil => simp at he
  | cons g gs ih =>
    simp only [List.map_cons, List.nodup_cons] at hnd
    rcases List.mem_cons.mp he with rfl | hmem
    · simp only [List.map_cons, entryLookupLast]
      rw [entryLookupLast_none (fun x hx hkey => hnd.1 (by
        rw [← hkey]
        exact List.mem_map.mpr ⟨x, hx, rfl⟩))]
      simp
    · simp only [List.map_cons, entryLookupLast]
      rw [ih hnd.2 hmem]

theorem propLookupLast_none {h : String → LinkHint} {qs : List String} {p : String}
    (hnp : p ∉ qs) : propLookupLast (qs.map (fun q => (q, h q))) p = none := by
  induction qs with
  | nil => rfl
  | cons q qs ih =>
    simp only [List.map_cons, propLookupLast]
    rw [ih (fun hmem => hnp (by simp [hmem]))]
    have : q ≠ p := fun hq => hnp (by simp [hq])
    simp [this]

theorem propLookupLast_mem {h : String → LinkHint} {qs : List String} {p : String}
    (hp : p ∈ qs) : propLookupLast (qs.map (fun q => (q, h q))) p = some (h p) := by
  induction qs with
  | nil => simp at hp
  | cons q qs ih =>
    simp only [List.map_cons, propLookupLast]
    by_cases hq : p ∈ qs
    · rw [ih hq]
    · rw [propLookupLast_none hq]
      have : q = p := by
        rcases List.mem_cons.mp hp with rfl | hmem
        · rfl
        · exact absurd hmem hq
      simp [this]

theorem propLookupLast_congr {h1 h2 : String → LinkHint} {qs : List String} {q : String}
    (hval : h1 q = h2 q) :
    propLookupLast (qs.map (fun x => (x, h1 x))) q =
      propLookupLast (qs.map (fun x => (x, h2 x))) q := by
  induction qs with
  | nil => rfl
  | cons x xs ih =>
    simp only [List.map_cons, propLookupLast]
    rw [ih]
    by_cases hx : x = q
    · subst hx
      rw [hval]
    · simp [hx]

theorem entityHints_key (probe : JsVal → String → Except Unit (List Entity))
    (ctx : JsVal) (exp : List Entity) (e : Entity) :
    (entityHints probe ctx exp (JsVal.obj e)).1 = idKeyOf e := rfl

theorem entityHints_entries (probe : JsVal → String → Except Unit (List Entity))
    (ctx : JsVal) (exp : List Entity) (e : Entity) :
    (entityHints probe ctx exp (JsVal.obj e)).2 =
      (propsOf e).map (fun p =>
        (p, ⟨expandPropertyIri probe ctx p,
             valueIrisFor (expandPropertyIri probe ctx p)
               ((exp.find? (fun n =>
                 jsStrictEq (getProp n "@id") (jsGet (JsVal.obj e) "@id"))).getD [])⟩)) := rfl

/-- Claim C6 (amended): on data-model documents `buildLinkedDataHints` never
throws; an absent (falsy) context yields the empty hints structure — no hint
is recorded at all; a failed expansion of property `p` records, for every
entity carrying `p`, the hint `{propIri: undefined, valueIris: []}`; and the
hints of every other property are unaffected by the failure. -/
theorem resolveLinkHints_failure_semantics :
    (∀ probe ctx (graph : List Entity) exp,
      ∃ h, buildLinkedDataHints probe (docOf ctx graph) exp = .ok h) ∧
    (∀ probe (json : JsVal) exp, json ≠ .null → json ≠ .undef →
      truthy (jsGet json "@context") = false →
      buildLinkedDataHints probe json exp = .ok []) ∧
    (∀ probe ctx (graph : List Entity) exp p h,
      truthy ctx = true → probe ctx p = .error () →
      (graph.map idKeyOf).Nodup →
      buildLinkedDataHints probe (docOf ctx graph) exp = .ok h →
      ∀ e ∈ graph, p ∈ propsOf e →
        hintsLookup h (idKeyOf e) p = some ⟨none, []⟩) ∧
    (∀ probe1 probe2 ctx (graph : List Entity) exp p h1 h2,
      (∀ c pn, pn ≠ p → probe1 c pn = probe2 c pn) →
      buildLinkedDataHints probe1 (docOf ctx graph) exp = .ok h1 →
      buildLinkedDataHints probe2 (docOf ctx graph) exp = .ok h2 →
      ∀ k q, q ≠ p → hintsLookup h1 k q = hintsLookup h2 k q) := by
  refine ⟨?_, ?_, ?_, ?_⟩
  · intro probe ctx graph exp
    exact ⟨_, buildLinkedDataHints_shape probe ctx graph exp⟩
  · intro probe json exp h1 h2 hctx
    cases json with
    | null => exact absurd rfl h1
    | undef => exact absurd rfl h2
    | str s => simp [buildLinkedDataHints, hctx]
    | num n => simp [buildLinkedDataHints, hctx]
    | boolean b => simp [buildLinkedDataHints, hctx]
    | arr xs => simp [buildLinkedDataHints, hctx]
    | obj fs => simp [buildLinkedDataHints, hctx]
  · intro probe ctx graph exp p h htr hfail hnd hh e he hp
    rw [buildLinkedDataHints_shape, htr, if_pos rfl, Except.ok.injEq] at hh
    subst hh
    unfold hintsLookup
    have hkeys : (graph.map (fun x =>
        (entityHints probe ctx exp (JsVal.obj x)).1)).Nodup := by
      simpa [entityHints_key] using hnd
    have hentry := @entryLookupLast_unique
      (fun x => entityHints probe ctx exp (JsVal.obj x)) _ _ hkeys he
    rw [entityHints_key] at hentry
    rw [hentry]
    have hiri : expandPropertyIri probe ctx p = none := by
      unfold expandPropertyIri
      rw [hfail]
    have hmem := @propLookupLast_mem
      (fun q => (⟨expandPropertyIri probe ctx q,
        valueIrisFor (expandPropertyIri probe ctx q)
          ((exp.find? (fun n =>
            jsStrictEq (getProp n "@id") (jsGet (JsVal.obj e) "@id"))).getD [])⟩ : LinkHint))
      _ _ hp
    have hfin : propLookupLast ((entityHints probe ctx exp (JsVal.obj e)).2) p =
        some ⟨none, []⟩ := by
      refine Eq.trans ?_ (by rw [hiri]; rfl : (some (⟨expandPropertyIri probe ctx p,
        valueIrisFor (expandPropertyIri probe ctx p)
          ((exp.find? (fun n =>
            jsStrictEq (getProp n "@id") (jsGet (JsVal.obj e) "@id"))).getD [])⟩ : LinkHint)) =
        some ⟨none, []⟩)
      exact hmem
    exact hfin
  · intro probe1 probe2 ctx graph exp p h1 h2 hagree hh1 hh2 k q hq
    rw [buildLinkedDataHints_shape, Except.ok.injEq] at hh1 hh2
    by_cases htr : truthy ctx = true
    · rw [htr, if_pos rfl] at hh1 hh2
      subst hh1
      subst hh2
      unfold hintsLookup
      -- relate the two entry lookups entity by entity
      have key_eq : ∀ x : Entity, (entityHints probe1 ctx exp (JsVal.obj x)).1 =
          (entityHints probe2 ctx exp (JsVal.obj x)).1 := fun _ => rfl
      have main : ∀ gs : List Entity,
          (entryLookupLast (gs.map (fun x => entityHints probe1 ctx exp (JsVal.obj x))) k = none ∧
           entryLookupLast (gs.map (fun x => entityHints probe2 ctx exp (JsVal.obj x))) k = none) ∨
          (∃ e0 ∈ gs,
            entryLookupLast (gs.map (fun x => entityHints probe1 ctx exp (JsVal.obj x))) k =
              some (entityHints probe1 ctx exp (JsVal.obj e0)).2 ∧
            entryLookupLast (gs.map (fun x => entityHints probe2 ctx exp (JsVal.obj x))) k =
              some (entityHints probe2 ctx exp (JsVal.obj e0)).2) := by
        intro gs
        induction gs with
        | nil => exact Or.inl ⟨rfl, rfl⟩
        | cons g gs ih =>
          rcases ih with ⟨hn1, hn2⟩ | ⟨e0, he0, hs1, hs2⟩
          · simp only [List.map_cons, entryLookupLast, hn1, hn2]
            by_cases hkg : (entityHints probe1 ctx exp (JsVal.obj g)).1 = k
            · right
              refine ⟨g, by simp, ?_, ?_⟩
              · simp [hkg]
              · rw [← key_eq g] at *
                simp [hkg]
            · left
              constructor
              · simp [hkg]
              · rw [← key_eq g] at *
                simp [hkg]
          · right
            refine ⟨e0, by simp [he0], ?_, ?_⟩
            · simp only [List.map_cons, entryLookupLast, hs1]
            · simp only [List.map_cons, entryLookupLast, hs2]
      rcases main graph with ⟨hn1, hn2⟩ | ⟨e0, _, hs1, hs2⟩
      · rw [hn1, hn2]
      · rw [hs1, hs2, entityHints_entries, entityHints_entries]
        exact propLookupLast_congr (by
          have : expandPropertyIri probe1 ctx q = expandPropertyIri probe2 ctx q := by
            unfold expandPropertyIri
            rw [hagree ctx q hq]
          rw [this])
    · have htr' : truthy ctx = false := by simpa using htr
      rw [htr', if_neg (by simp)] at hh1 hh2
      subst hh1
      subst hh2
      rfl

def c6NoCtxDoc : JsVal := .obj [("@graph", .arr [.obj [("@id", .str "e"), ("p", .str "v")]])]

/-- Claim C6 (counterexample): with the context absent the resolver returns
the empty hints structure — the hint for the pair `("e","p")` is not
recorded at all, not recorded with an empty value-IRI set. -/
theorem resolveLinkHints_context_absent_counterexample :
    buildLinkedDataHints (fun _ _ => .ok []) c6NoCtxDoc [] = .ok [] ∧
    hintsLookup [] "e" "p" = none ∧
    propsOf [("@id", .str "e"), ("p", .str "v")] = ["p"] :=
  ⟨rfl, rfl, rfl⟩

/-- Claim C6 (witness): a concrete one-entity document with a failing probe
on `"p"` and an agreeing pair of probes differing only at `"p"`. -/
theorem resolveLinkHints_failure_semantics_witness :
    (∃ h, buildLinkedDataHints (fun _ _ => .error ()) (docOf (.str "c") [[("@id", .str "e"), ("p", .str "v")]]) [] = .ok h) ∧
    buildLinkedDataHints (fun _ _ => .ok []) (.obj [("@graph", .arr [])]) [] = .ok [] ∧
    (∀ h, buildLinkedDataHints (fun _ _ => .error ()) (docOf (.str "c") [[("@id", .str "e"), ("p", .str "v")]]) [] = .ok h →
      hintsLookup h (idKeyOf [("@id", .str "e"), ("p", .str "v")]) "p" = some ⟨none, []⟩) := by
  refine ⟨resolveLinkHints_failure_semantics.1 _ _ _ _, ?_, ?_⟩
  · exact resolveLinkHints_failure_semantics.2.1 (fun _ _ => .ok [])
      (.obj [("@graph", .arr [])]) [] (by simp) (by simp) rfl
  · intro h hh
    exact resolveLinkHints_failure_semantics.2.2.1 (fun _ _ => .error ())
      (.str "c") [[("@id", .str "e"), ("p", .str "v")]] [] "p" h rfl rfl
      (by simp) hh [("@id", .str "e"), ("p", .str "v")] (by simp) (by decide)

/-! ## Navigation & cache manager (`App.vue` state machine)

The reactive refs of `App.vue` are collected in `AppState`; the external
collaborators (network, `jsonld`, the `ro-crate` library constructor and the
WHATWG `URL` parser) are the oracle functions of a `World`.  Every operation
returns the successor state together with a flag that is `true` exactly when
the operation ran `processCrateData` to completion without entering its
`catch` block. -/

/-- `s.includes(t)` (substring test). -/
def strContains (s t : String) : Bool :=
  go s.data t.data
where
  go : List Char → List Char → Bool
    | [], t => t.isEmpty
    | l@(_ :: rest), t => List.isPrefixOf t l || go rest t

/-- Fuelled model of the builtin `JSON.stringify` (the exact text is never
inspected by the application; only the field's value identity matters to the
claims). -/
def stringifyFuel : Nat → JsVal → String
  | 0, _ => ""
  | _ + 1, .undef => ""
  | _ + 1, .null => "null"
  | _ + 1, .str s => "\"" ++ s ++ "\""
  | _ + 1, .num n => toString n
  | _ + 1, .boolean b => if b then "true" else "false"
  | f + 1, .arr xs =>
      "[" ++ String.intercalate "," (xs.map (fun x => stringifyFuel f x)) ++ "]"
  | f + 1, .obj fs =>
      "\x7b" ++ String.intercalate ","
        (fs.map (fun kv => "\"" ++ kv.1 ++ "\":" ++ stringifyFuel f kv.2)) ++ "\x7d"

/-- Model of `JSON.stringify(v, null, 2)` (exact on depth < 100 up to
whitespace; see `stringifyFuel`). -/
def stringify (v : JsVal) : String := stringifyFuel 100 v

/-- Replace the value of an existing key of a JS object (`{...json, k: v}`
keeps the original insertion position of an existing key). -/
def objSetKey (fs : Entity) (k : String) (v : JsVal) : Entity :=
  fs.map (fun kv => if kv.1 = k then (k, v) else kv)

/-- `{...descriptor, "@id": v}`: overwrite in place when present, append
otherwise. -/
def setField (fs : Entity) (k : String) (v : JsVal) : Entity :=
  if (fs.map Prod.fst).contains k then objSetKey fs k v else fs ++ [(k, v)]

/-- The descriptor test of `normalizeDescriptorName`'s `findIndex` callback;
reading `entity["@type"]` throws on a `null`/`undefined` element. -/
def descriptorTest (entity : JsVal) : Except Unit Bool :=
  match entity with
  | .null => .error ()
  | .undef => .error ()
  | v =>
    if ¬ isStrVal (jsGet v "@type") "CreativeWork" then .ok false
    else
      let conformsTo := jsGet v "conformsTo"
      let conformsToId :=
        match conformsTo with
        | .null => JsVal.null
        | .undef => JsVal.undef
        | c => if truthy (jsGet c "@id") then jsGet c "@id" else c
      if ¬ truthy conformsToId then .ok false
      else if ¬ strContains (jsToString conformsToId) "ro/crate" then .ok false
      else
        let about := jsGet v "about"
        let aboutId :=
          match about with
          | .null => JsVal.null
          | .undef => JsVal.undef
          | a => if truthy (jsGet a "@id") then jsGet a "@id" else a
        .ok (isStrVal aboutId "./" || isStrVal aboutId ".")

/-- `Array.prototype.findIndex` with a throwing callback. -/
def findIndexE (test : JsVal → Except Unit Bool) : List JsVal → Except Unit (Option Nat)
  | [] => .ok none
  | x :: xs =>
    match test x with
    | .error e => .error e
    | .ok true => .ok (some 0)
    | .ok false =>
      match findIndexE test xs with
      | .error e => .error e
      | .ok none => .ok none
      | .ok (some i) => .ok (some (i + 1))

/-- `normalizeDescriptorName(json)` from `App.vue`. -/
def normalizeDescriptorName (json : JsVal) : Except Unit JsVal :=
  if ¬ truthy json then .ok json
  else
    let g := jsGet json "@graph"
    if ¬ truthy g then .ok json
    else match g, json with
      | .arr graph, .obj jfs =>
        match findIndexE descriptorTest graph with
        | .error x => .error x
        | .ok none => .ok json
        | .ok (some i) =>
          let descriptor := (graph.get? i).getD JsVal.undef
          if isStrVal (jsGet descriptor "@id") "ro-crate-metadata.json" then .ok json
          else
            match descriptor with
            | .obj dfs =>
              .ok (.obj (objSetKey jfs "@graph"
                (.arr (graph.set i (.obj (setField dfs "@id" (.str "ro-crate-metadata.json")))))))
            | _ => .ok json
      | _, _ => .error ()

/-- `getSafeName(entity, fallback)` from `App.vue` (the raw returned value is
coerced to the string the state stores). -/
def getSafeName (entity : Option Entity) (fallback : String) : String :=
  match entity with
  | none => fallback
  | some e =>
    let name0 := getProp e "name"
    let name := match name0 with
      | .arr (x :: _) => x
      | v => v
    if truthy name && isStr name then jsToString name
    else if truthy (getProp e "@id") then jsToString (getProp e "@id")
    else fallback

/-- `allEntities.value.find((e) => e["@id"] === "./" || e["@id"] === ".")`;
reading `e["@id"]` off a `null`/`undefined` element throws. -/
def findRootJs : List JsVal → Except Unit (Option JsVal)
  | [] => .ok none
  | e :: rest =>
    match e with
    | .null => .error ()
    | .undef => .error ()
    | v =>
      if isStrVal (jsGet v "@id") "./" || isStrVal (jsGet v "@id") "." then .ok (some v)
      else findRootJs rest

/-- `json["@graph"] || []` as an entity array (member access off
`null`/`undefined` throws; a truthy non-array graph makes the later array
iteration throw and is mapped to the throwing case). -/
def jsGraphExtract (json : JsVal) : Except Unit (List JsVal) :=
  match json with
  | .null => .error ()
  | .undef => .error ()
  | j =>
    let g := jsGet j "@graph"
    if ¬ truthy g then .ok []
    else match g with
      | .arr xs => .ok xs
      | _ => .error ()

/-- A fully processed crate stored in `crateCache`. -/
structure CachedCrate where
  json : JsVal
  entities : List JsVal
  expandedCrate : List Entity
  linkedDataHints : Hints
  crateName : String
deriving Repr

/-- A breadcrumb entry (`HistoryItem` in `App.vue`). -/
structure HistoryItem where
  name : String
  url : Option String
deriving Repr, DecidableEq

/-- Outcome of the stateful-mode `POST /crates/url` summary request, with the
response body already interpreted: success carries `primary_crate.crate_id`;
a 409 conflict carries the crate id extracted from the error text when the
text could be parsed (spec §9 sanctions treating the already-indexed reply as
an explicit outcome rather than re-parsing its message format). -/
inductive SummaryOutcome where
  | ok (crateId : String)
  | conflict (extracted : Option String) (errText : String)
  | httpError (status : Nat) (errText : String)

/-- Outcome of the `try { new URL(resolvedUrl) ... }` normalisation block in
`handleSubcrateOpen`: the URL constructor threw, or the pathname did not
match the metadata-filename pattern, or it matched with the given filename
and the stripped, slash-terminated base href. -/
inductive UrlMetaOutcome where
  | ctorThrow
  | noMatch
  | matched (fname : String) (strippedBase : String)

/-- The external collaborators, as deterministic oracles.  `fetchCrate` is
`fetchCrateFromUrl` (retrieval + JSON parse + `validateRoCrateJson`);
`expandDoc`/`probeExpand` are `jsonld.expand` on the document and on the
one-property probe; `rocrate` is the `new ROCrate(...)` constructor's throw
behaviour and `rocrateRoot` its `rootDataset` accessor; the `url*` oracles
are the WHATWG URL-parser fragments. -/
structure World where
  stateless : Bool
  fetchCrate : String → Except String JsVal
  summaryFetch : String → SummaryOutcome
  fetchMeta : String → Except String JsVal
  expandDoc : JsVal → Except String (List Entity)
  probeExpand : JsVal → String → Except Unit (List Entity)
  rocrate : JsVal → Except String Unit
  rocrateRoot : JsVal → Option Entity
  urlEnsureSlash : String → Option String
  urlResolve : String → String → Option String
  urlMeta : String → UrlMetaOutcome

/-- The mutable refs of `App.vue` that the navigation claims touch.
(`selectedEntityData` is the pure display projection of `allEntities` at
`selectedEntityId` and is not duplicated here; `crateJson` records the
normalised document handed to the `ROCrate` constructor, i.e. the identity of
`crate.value`.) -/
structure AppState where
  inputUrl : String
  currentUrl : Option String
  allEntities : List JsVal
  expandedCrate : List Entity
  linkedDataHints : Hints
  currentCrateName : String
  crateJson : Option JsVal
  fullCrateJson : Option String
  historyStack : List HistoryItem
  baseUrl : String
  rootCrateUrl : Option String
  crateCache : List (String × CachedCrate)
  errorMsg : Option String
  selectedEntityId : String
  search : SearchState
deriving Repr

/-- `crateCache.get(key)` (later `set` calls shadow earlier entries). -/
def cacheGet (s : AppState) (key : String) : Option CachedCrate :=
  List.lookup key s.crateCache

/-- `updateBreadcrumbsForCrate(crateUrl)` from `App.vue`: clear when there is
no (truthy) crate url or no (truthy) recorded root, clear when at the root,
otherwise preserve. -/
def updateBreadcrumbsForCrate (crateUrl : Option String) (s : AppState) : AppState :=
  match truthyOpt crateUrl, truthyOpt s.rootCrateUrl with
  | some c, some r => if c = r then { s with historyStack := [] } else s
  | _, _ => { s with historyStack := [] }

/-- `processCrateData` on a cache hit (`cachedData && cachedData.expandedCrate`;
the second conjunct is an array and hence always truthy). -/
def processCachedCrate (w : World) (s : AppState) (c : CachedCrate)
    (sourceUrl : Option String) (isFirstCrate : Bool) : AppState × Bool :=
  let s := { s with
    allEntities := c.entities
    expandedCrate := c.expandedCrate
    linkedDataHints := c.linkedDataHints
    currentCrateName := c.crateName
    fullCrateJson := some (stringify c.json)
    currentUrl := sourceUrl }
  match normalizeDescriptorName c.json with
  | .error _ =>
    ({ s with errorMsg := some "Failed to process RO-Crate JSON: TypeError" }, false)
  | .ok normalized =>
    match w.rocrate normalized with
    | .error m =>
      ({ s with errorMsg := some ("Failed to process RO-Crate JSON: " ++ m) }, false)
    | .ok _ =>
      let s := { s with crateJson := some normalized }
      let crateId := (truthyOpt sourceUrl).getD "primary"
      match (if isFirstCrate then buildSearchIndex s.allEntities crateId s.search
             else addToIndex s.allEntities crateId s.search) with
      | (st, false) =>
        let s := { s with search := st }
        ({ s with errorMsg := some "Failed to process RO-Crate JSON: TypeError" }, false)
      | (st, true) =>
        let s := { s with search := st, selectedEntityId := "./" }
        (updateBreadcrumbsForCrate sourceUrl s, true)

/-- The tail of the fresh-data path, after the inner expansion `try` block:
root-entity lookup, display-name resolution, cache insertion, breadcrumb
update.  `expandedLocal`/`hintsLocal` are the local variables of the source,
which survive the inner catch while the refs are reset. -/
def finishFreshCrate (w : World) (s : AppState) (json : JsVal)
    (sourceName : String) (sourceUrl : Option String)
    (expandedLocal : List Entity) (hintsLocal : Hints) : AppState × Bool :=
  match findRootJs s.allEntities with
  | .error _ =>
    ({ s with errorMsg := some "Failed to process RO-Crate JSON: TypeError" }, false)
  | .ok found =>
    let rootEntity : Option Entity :=
      match found with
      | some (.obj fs) => some fs
      | some _ => none
      | none => w.rocrateRoot json
    let s := { s with currentCrateName := getSafeName rootEntity sourceName }
    let s :=
      match truthyOpt sourceUrl with
      | some u => { s with crateCache :=
          (u, ⟨json, s.allEntities, expandedLocal, hintsLocal, s.currentCrateName⟩) ::
            s.crateCache }
      | none => s
    (updateBreadcrumbsForCrate sourceUrl s, true)

/-- `processCrateData` on fresh data (the non-cached tail of the function). -/
def processFreshCrate (w : World) (s : AppState) (json : JsVal)
    (sourceName : String) (sourceUrl : Option String) (isFirstCrate : Bool) :
    AppState × Bool :=
  let s := { s with allEntities := [], selectedEntityId := "./" }
  match normalizeDescriptorName json with
  | .error _ =>
    ({ s with errorMsg := some "Failed to process RO-Crate JSON: TypeError" }, false)
  | .ok normalized =>
    match w.rocrate normalized with
    | .error m =>
      ({ s with errorMsg := some ("Failed to process RO-Crate JSON: " ++ m) }, false)
    | .ok _ =>
      let s := { s with crateJson := some normalized }
      match jsGraphExtract json with
      | .error _ =>
        ({ s with errorMsg := some "Failed to process RO-Crate JSON: TypeError" }, false)
      | .ok graph =>
        let s := { s with
          allEntities := graph
          fullCrateJson := some (stringify json)
          currentUrl := sourceUrl }
        let crateId := (truthyOpt sourceUrl).getD "primary"
        match (if isFirstCrate then buildSearchIndex s.allEntities crateId s.search
               else addToIndex s.allEntities crateId s.search) with
        | (st, false) =>
          let s := { s with search := st }
          ({ s with errorMsg := some "Failed to process RO-Crate JSON: TypeError" }, false)
        | (st, true) =>
          let s := { s with search := st }
          -- inner try: expansion and hints, with a local catch
          match w.expandDoc json with
          | .error _ =>
            finishFreshCrate w { s with expandedCrate := [], linkedDataHints := [] }
              json sourceName sourceUrl [] []
          | .ok expanded =>
            match buildLinkedDataHints w.probeExpand json expanded with
            | .error _ =>
              -- the ref briefly held `expanded`; the catch resets it, but the
              -- local variable survives into the cache entry
              finishFreshCrate w { s with expandedCrate := [], linkedDataHints := [] }
                json sourceName sourceUrl expanded []
            | .ok hints =>
              finishFreshCrate w { s with expandedCrate := expanded, linkedDataHints := hints }
                json sourceName sourceUrl expanded hints

/-- `processCrateData(json, sourceName, sourceUrl, isFirstCrate)` from
`App.vue`. -/
def processCrateData (w : World) (s : AppState) (json : JsVal)
    (sourceName : String) (sourceUrl : Option String) (isFirstCrate : Bool) :
    AppState × Bool :=
  let s :=
    if isFirstCrate && (truthyOpt sourceUrl).isSome then
      { s with rootCrateUrl := sourceUrl }
    else s
  let cachedData :=
    match truthyOpt sourceUrl with
    | some u => cacheGet s u
    | none => none
  match cachedData with
  | some c => processCachedCrate w s c sourceUrl isFirstCrate
  | none => processFreshCrate w s json sourceName sourceUrl isFirstCrate

/-- The `baseUrl` computation shared by the loaders: URL-normalise with a
trailing slash via the URL oracle, falling back to plain string append when
the constructor throws. -/
def computeBaseUrl (w : World) (u : String) : String :=
  match w.urlEnsureSlash u with
  | some href => href
  | none => ensureSlash u

/-- `fetchMetadata(crateId, sourceName, sourceUrl, isFirstCrate)`: an
`Except.error` is the rethrown failure the caller catches. -/
def fetchMetadata (w : World) (s : AppState) (crateId : String)
    (sourceName : String) (sourceUrl : Option String) (isFirstCrate : Bool) :
    Except String (AppState × Bool) :=
  let apiCrateId := if strEndsWith crateId "/" then crateId.dropRight 1 else crateId
  match w.fetchMeta apiCrateId with
  | .error e => .error ("Metadata fetch failed: " ++ e)
  | .ok metadataJson => .ok (processCrateData w s metadataJson sourceName sourceUrl isFirstCrate)

/-- The non-cached continuation of `loadFromUrl` (stateless fetch, or the
stateful summary/409/metadata flow). -/
def loadFromUrlFetch (w : World) (s : AppState) (fetchUrl : String)
    (isFirstCrate : Bool) : AppState × Bool :=
  if w.stateless then
    match w.fetchCrate fetchUrl with
    | .error e => ({ s with errorMsg := some ("Error loading URL: " ++ e) }, false)
    | .ok json =>
      let s := { s with
        fullCrateJson := some (stringify json)
        currentUrl := some fetchUrl
        baseUrl := computeBaseUrl w fetchUrl }
      processCrateData w s json "Remote Crate" (some fetchUrl) isFirstCrate
  else
    match w.summaryFetch fetchUrl with
    | .conflict (some cid) _ =>
      let s := { s with baseUrl := computeBaseUrl w cid }
      match fetchMetadata w s cid "Remote Crate (Indexed)" (some fetchUrl) isFirstCrate with
      | .error e => ({ s with errorMsg := some ("Error loading URL: " ++ e) }, false)
      | .ok r => r
    | .conflict none errText =>
      ({ s with errorMsg := some ("Error loading URL: Server Error (409): " ++ errText) }, false)
    | .httpError _status errText =>
      ({ s with errorMsg := some ("Error loading URL: Server Error: " ++ errText) }, false)
    | .ok cid =>
      let s := { s with baseUrl := computeBaseUrl w cid }
      match fetchMetadata w s cid "Remote Crate" (some fetchUrl) isFirstCrate with
      | .error e => ({ s with errorMsg := some ("Error loading URL: " ++ e) }, false)
      | .ok r => r

/-- `loadFromUrl()` from `App.vue`. -/
def loadFromUrl (w : World) (s : AppState) : AppState × Bool :=
  if s.inputUrl = "" then (s, false)
  else
    let s := { s with errorMsg := none }
    let isFirstCrate := s.rootCrateUrl = none
    let fetchUrl := s.inputUrl
    match cacheGet s fetchUrl with
    | some c =>
      if truthy c.json then
        let s := { s with baseUrl := computeBaseUrl w fetchUrl }
        processCrateData w s c.json "Remote Crate (Cached)" (some fetchUrl) isFirstCrate
      else loadFromUrlFetch w s fetchUrl isFirstCrate
    | none => loadFromUrlFetch w s fetchUrl isFirstCrate

/-- The metadata-document filename suffix. -/
def metaSuffix : String := "ro-crate-metadata.json"

/-- The fallback regex `/[\/\\]([^\/\\]+ro-crate-metadata\.json)$/i` applied
to a non-URL string: a final path segment, preceeded by a separator, that
consists of at least one character followed (case-insensitively) by the
metadata filename.  Returns the matched filename and the string with the
match replaced by `"/"`. -/
def fallbackStrip (s : String) : Option (String × String) :=
  let rev := s.data.reverse
  match rev.findIdx? (fun c => c = '/' || c = '\\') with
  | none => none
  | some i =>
    let fname := (rev.take i).reverse
    let fnameStr := String.mk fname
    if decide (metaSuffix.length + 1 ≤ fnameStr.length) &&
        strEndsWith (lowerStr fnameStr) metaSuffix then
      some (fnameStr, String.mk ((rev.drop (i + 1)).reverse) ++ "/")
    else none

/-- The subcrate-reference normalisation of `handleSubcrateOpen`: resolve
against the current base, strip a metadata filename (preserving it for the
fetch), ensure a trailing slash, and special-case the empty result to `"."`.
Returns `(subcrateBaseUrl, metadataFilename)`. -/
def resolveSubcrate (w : World) (baseUrl : String) (subcrateId : String) :
    String × String :=
  let resolvedUrl :=
    match w.urlResolve subcrateId baseUrl with
    | some href => href
    | none => subcrateId
  let (base, fname) :=
    match w.urlMeta resolvedUrl with
    | .matched fn strippedBase => (strippedBase, fn)
    | .noMatch => (ensureSlash resolvedUrl, metaSuffix)
    | .ctorThrow =>
      match fallbackStrip resolvedUrl with
      | some (fn, b) => (b, fn)
      | none => (ensureSlash resolvedUrl, metaSuffix)
  if base = "" then (".", fname) else (base, fname)

/-- The slash-terminated locator a subcrate navigation targets (its cache key
and, on success, the new `currentUrl`/`baseUrl`). -/
def subcrateTargetKey (w : World) (baseUrl : String) (subcrateId : String) : String :=
  ensureSlash (resolveSubcrate w baseUrl subcrateId).1

/-- The URL the stateless subcrate branch fetches. -/
def subcrateFetchUrl (subBase metadataFilename : String) : String :=
  if subBase = "." then metadataFilename
  else if strEndsWith (lowerStr subBase) metaSuffix then subBase
  else if strEndsWith subBase "/" then subBase ++ metadataFilename
  else subBase ++ "/" ++ metadataFilename

/-- The non-cached tail of `handleSubcrateOpen`. -/
def subcrateFetch (w : World) (s : AppState) (subBase metadataFilename : String) :
    AppState × Bool :=
  if w.stateless then
    match w.fetchCrate (subcrateFetchUrl subBase metadataFilename) with
    | .error e => ({ s with errorMsg := some ("Error loading subcrate: " ++ e) }, false)
    | .ok json =>
      let s := { s with
        baseUrl := ensureSlash subBase
        inputUrl := subBase
        currentUrl := some (ensureSlash subBase) }
      processCrateData w s json "Subcrate" (some (ensureSlash subBase)) false
  else
    let apiCrateId := if strEndsWith subBase "/" then subBase.dropRight 1 else subBase
    let s := { s with
      baseUrl := ensureSlash subBase
      inputUrl := subBase
      currentUrl := some (ensureSlash subBase) }
    match fetchMetadata w s apiCrateId "Subcrate" (some (ensureSlash subBase)) false with
    | .error e => ({ s with errorMsg := some ("Error loading subcrate: " ++ e) }, false)
    | .ok r => r

/-- `handleSubcrateOpen(subcrateId)` from `App.vue`. -/
def handleSubcrateOpen (w : World) (s : AppState) (subcrateId : String) :
    AppState × Bool :=
  if s.baseUrl = "" then (s, false)
  else
    -- push the currently active crate BEFORE navigating
    let pushedUrl :=
      match truthyOpt s.currentUrl with
      | some u => u
      | none => s.baseUrl
    let s := { s with historyStack :=
      s.historyStack ++ [HistoryItem.mk s.currentCrateName (some pushedUrl)] }
    let (subBase, metadataFilename) := resolveSubcrate w s.baseUrl subcrateId
    let s := { s with errorMsg := none }
    let cacheKey := ensureSlash subBase
    match cacheGet s cacheKey with
    | some c =>
      if truthy c.json && w.stateless then
        let s := { s with
          baseUrl := ensureSlash subBase
          inputUrl := subBase
          currentUrl := some (ensureSlash subBase) }
        processCrateData w s c.json "Subcrate (Cached)" (some (ensureSlash subBase)) false
      else subcrateFetch w s subBase metadataFilename
    | none => subcrateFetch w s subBase metadataFilename

/-- `goBack()` from `App.vue`: pop the last breadcrumb and navigate to it. -/
def goBack (w : World) (s : AppState) : AppState × Bool :=
  match s.historyStack.getLast? with
  | none => (s, false)
  | some parent =>
    let s := { s with historyStack := s.historyStack.dropLast }
    match truthyOpt parent.url with
    | some u => loadFromUrl w { s with inputUrl := u }
    | none => (s, false)

/-- `goToBreadcrumb(index)` from `App.vue`: truncate strictly before the
index, then navigate to the clicked entry. -/
def goToBreadcrumb (w : World) (s : AppState) (index : Nat) : AppState × Bool :=
  match s.historyStack.get? index with
  | none => (s, false)
  | some target =>
    match truthyOpt target.url with
    | none => (s, false)
    | some u =>
      let s := { s with historyStack := s.historyStack.take index }
      loadFromUrl w { s with inputUrl := u }

theorem updateBreadcrumbs_currentUrl (u : Option String) (s : AppState) :
    (updateBreadcrumbsForCrate u s).currentUrl = s.currentUrl := by
  unfold updateBreadcrumbsForCrate
  rcases truthyOpt u with _ | c <;> rcases truthyOpt s.rootCrateUrl with _ | r <;>
    simp <;> split <;> rfl

theorem updateBreadcrumbs_rootCrateUrl (u : Option String) (s : AppState) :
    (updateBreadcrumbsForCrate u s).rootCrateUrl = s.rootCrateUrl := by
  unfold updateBreadcrumbsForCrate
  rcases truthyOpt u with _ | c <;> rcases truthyOpt s.rootCrateUrl with _ | r <;>
    simp <;> split <;> rfl

theorem updateBreadcrumbs_clears {u : Option String} {s : AppState}
    (h : u = s.rootCrateUrl) : (updateBreadcrumbsForCrate u s).historyStack = [] := by
  unfold updateBreadcrumbsForCrate
  rw [h]
  rcases ht : truthyOpt s.rootCrateUrl with _ | c <;> simp [ht]

theorem processCachedCrate_success {w : World} {s : AppState} {c : CachedCrate}
    {src : Option String} {first : Bool} {s' : AppState}
    (h : processCachedCrate w s c src first = (s', true)) :
    s'.currentUrl = src ∧ s'.rootCrateUrl = s.rootCrateUrl ∧
      (src = s'.rootCrateUrl → s'.historyStack = []) := by
  unfold processCachedCrate at h
  split at h
  · exact absurd (congrArg Prod.snd h) (by simp)
  · split at h
    · exact absurd (congrArg Prod.snd h) (by simp)
    · simp only [] at h
      split at h
      · exact absurd (congrArg Prod.snd h) (by simp)
      · obtain ⟨h1, _⟩ := Prod.mk.inj h
        subst h1
        refine ⟨updateBreadcrumbs_currentUrl _ _, updateBreadcrumbs_rootCrateUrl _ _, ?_⟩
        intro hsrc
        exact updateBreadcrumbs_clears (by rw [hsrc, updateBreadcrumbs_rootCrateUrl])

theorem finishFreshCrate_success {w : World} {s : AppState} {json : JsVal}
    {name : String} {src : Option String} {exp : List Entity} {hs : Hints}
    {s' : AppState} (h : finishFreshCrate w s json name src exp hs = (s', true)) :
    s'.currentUrl = s.currentUrl ∧ s'.rootCrateUrl = s.rootCrateUrl ∧
      (src = s'.rootCrateUrl → s'.historyStack = []) := by
  unfold finishFreshCrate at h
  split at h
  · exact absurd (congrArg Prod.snd h) (by simp)
  · repeat' split at h
    all_goals
      simp only [] at h
      obtain ⟨h1, _⟩ := Prod.mk.inj h
      subst h1
      refine ⟨updateBreadcrumbs_currentUrl _ _, updateBreadcrumbs_rootCrateUrl _ _, ?_⟩
      intro hsrc
      exact updateBreadcrumbs_clears (by rw [hsrc, updateBreadcrumbs_rootCrateUrl])

theorem processFreshCrate_success {w : World} {s : AppState} {json : JsVal}
    {name : String} {src : Option String} {first : Bool} {s' : AppState}
    (h : processFreshCrate w s json name src first = (s', true)) :
    s'.currentUrl = src ∧ s'.rootCrateUrl = s.rootCrateUrl ∧
      (src = s'.rootCrateUrl → s'.historyStack = []) := by
  unfold processFreshCrate at h
  split at h
  · exact absurd (congrArg Prod.snd h) (by simp)
  · split at h
    · exact absurd (congrArg Prod.snd h) (by simp)
    · split at h
      · exact absurd (congrArg Prod.snd h) (by simp)
      · simp only [] at h
        split at h
        · exact absurd (congrArg Prod.snd h) (by simp)
        · split at h
          · have := finishFreshCrate_success h
            simpa using this
          · split at h
            all_goals
              have := finishFreshCrate_success h
              simpa using this

theorem processCrateData_success {w : World} {s : AppState} {json : JsVal}
    {name : String} {src : Option String} {first : Bool} {s' : AppState}
    (h : processCrateData w s json name src first = (s', true)) :
    s'.currentUrl = src ∧ (src = s'.rootCrateUrl → s'.historyStack = []) := by
  unfold processCrateData at h
  split at h <;> simp only [] at h <;> (repeat' split at h) <;>
    first
      | exact ⟨(processCachedCrate_success h).1, (processCachedCrate_success h).2.2⟩
      | exact ⟨(processFreshCrate_success h).1, (processFreshCrate_success h).2.2⟩


theorem processCrateData_home {w : World} {s : AppState} {json : JsVal}
    {name : String} {src : Option String} {first : Bool} {s' : AppState}
    (h : processCrateData w s json name src first = (s', true)) :
    s'.currentUrl = s'.rootCrateUrl → s'.historyStack = [] := by
  rcases processCrateData_success h with ⟨h1, h2⟩
  intro he
  rw [h1] at he
  exact h2 he

theorem fetchMetadata_home {w : World} {s : AppState} {cid : String}
    {name : String} {src : Option String} {first : Bool} {s' : AppState}
    (h : fetchMetadata w s cid name src first = .ok (s', true)) :
    s'.currentUrl = s'.rootCrateUrl → s'.historyStack = [] := by
  unfold fetchMetadata at h
  simp only [] at h
  split at h
  · exact Except.noConfusion h
  · rw [Except.ok.injEq] at h
    exact processCrateData_home h

theorem loadFromUrlFetch_home {w : World} {s : AppState} {fetchUrl : String}
    {first : Bool} {s' : AppState}
    (h : loadFromUrlFetch w s fetchUrl first = (s', true)) :
    s'.currentUrl = s'.rootCrateUrl → s'.historyStack = [] := by
  unfold loadFromUrlFetch at h
  split at h
  · split at h
    · exact absurd (congrArg Prod.snd h) (by simp)
    · exact processCrateData_home h
  · split at h
    · simp only [] at h
      split at h
      · exact absurd (congrArg Prod.snd h) (by simp)
      · rename_i r heq
        subst h
        exact fetchMetadata_home heq
    · exact absurd (congrArg Prod.snd h) (by simp)
    · exact absurd (congrArg Prod.snd h) (by simp)
    · simp only [] at h
      split at h
      · exact absurd (congrArg Prod.snd h) (by simp)
      · rename_i r heq
        subst h
        exact fetchMetadata_home heq

theorem loadFromUrl_home {w : World} {s : AppState} {s' : AppState}
    (h : loadFromUrl w s = (s', true)) :
    s'.currentUrl = s'.rootCrateUrl → s'.historyStack = [] := by
  unfold loadFromUrl at h
  split at h
  · exact absurd (congrArg Prod.snd h) (by simp)
  · simp only [] at h
    split at h
    · split at h
      · exact processCrateData_home h
      · exact loadFromUrlFetch_home h
    · exact loadFromUrlFetch_home h

theorem subcrateFetch_home {w : World} {s : AppState} {subBase mfn : String}
    {s' : AppState} (h : subcrateFetch w s subBase mfn = (s', true)) :
    s'.currentUrl = s'.rootCrateUrl → s'.historyStack = [] := by
  unfold subcrateFetch at h
  split at h
  · split at h
    · exact absurd (congrArg Prod.snd h) (by simp)
    · exact processCrateData_home h
  · simp only [] at h
    split at h
    · exact absurd (congrArg Prod.snd h) (by simp)
    · rename_i r heq
      subst h
      exact fetchMetadata_home heq

theorem handleSubcrateOpen_home {w : World} {s : AppState} {sub : String}
    {s' : AppState} (h : handleSubcrateOpen w s sub = (s', true)) :
    s'.currentUrl = s'.rootCrateUrl → s'.historyStack = [] := by
  unfold handleSubcrateOpen at h
  split at h
  · exact absurd (congrArg Prod.snd h) (by simp)
  · simp only [] at h
    repeat' split at h
    all_goals
      first
        | exact processCrateData_home h
        | exact subcrateFetch_home h

theorem goBack_home {w : World} {s : AppState} {s' : AppState}
    (h : goBack w s = (s', true)) :
    s'.currentUrl = s'.rootCrateUrl → s'.historyStack = [] := by
  unfold goBack at h
  split at h
  · exact absurd (congrArg Prod.snd h) (by simp)
  · simp only [] at h
    split at h
    · exact loadFromUrl_home h
    · exact absurd (congrArg Prod.snd h) (by simp)

theorem goToBreadcrumb_home {w : World} {s : AppState} {i : Nat} {s' : AppState}
    (h : goToBreadcrumb w s i = (s', true)) :
    s'.currentUrl = s'.rootCrateUrl → s'.historyStack = [] := by
  unfold goToBreadcrumb at h
  split at h
  · exact absurd (congrArg Prod.snd h) (by simp)
  · split at h
    · exact absurd (congrArg Prod.snd h) (by simp)
    · simp only [] at h
      exact loadFromUrl_home h

/-- **C4.** After every successful navigation — direct load (`loadFromUrl`),
nested-package open (`handleSubcrateOpen`), breadcrumb click
(`goToBreadcrumb`), or back navigation (`goBack`) — whose target locator
(the resulting `currentUrl`) equals the recorded root locator
(`rootCrateUrl`), the breadcrumb stack is empty. -/
theorem navigation_at_root_clears_breadcrumbs
    (w : World) (s s' : AppState) (sub : String) (i : Nat) :
    (loadFromUrl w s = (s', true) → s'.currentUrl = s'.rootCrateUrl →
      s'.historyStack = []) ∧
    (handleSubcrateOpen w s sub = (s', true) → s'.currentUrl = s'.rootCrateUrl →
      s'.historyStack = []) ∧
    (goToBreadcrumb w s i = (s', true) → s'.currentUrl = s'.rootCrateUrl →
      s'.historyStack = []) ∧
    (goBack w s = (s', true) → s'.currentUrl = s'.rootCrateUrl →
      s'.historyStack = []) :=
  ⟨fun h => loadFromUrl_home h, fun h => handleSubcrateOpen_home h,
   fun h => goToBreadcrumb_home h, fun h => goBack_home h⟩

/-- A minimal well-formed crate document served by the oracle world `W4`. -/
def docR : JsVal :=
  .obj [("@context", .str "ctx"),
        ("@graph", .arr [.obj [("@id", .str "./"), ("name", .str "Root")]])]

/-- A concrete stateless world whose fetch always yields `docR`. -/
def W4 : World :=
  ⟨true, fun _ => .ok docR, fun _ => .httpError 500 "e", fun _ => .error "e",
   fun _ => .ok [], fun _ _ => .ok [], fun _ => .ok (), fun _ => none,
   fun _ => none, fun _ _ => none, fun _ => .ctorThrow⟩

/-- A concrete pre-load state with a stale breadcrumb entry. -/
def S4 : AppState :=
  ⟨"R/", none, [], [], [], "", none, none, [HistoryItem.mk "old" (some "J/")],
   "", none, [], none, "", ⟨none, []⟩⟩

/-- The state after loading `"R/"` in `W4` from `S4`. -/
def S4r : AppState := (loadFromUrl W4 S4).1

theorem navigation_at_root_clears_breadcrumbs_witness :
    loadFromUrl W4 S4 = (S4r, true) ∧ S4r.currentUrl = S4r.rootCrateUrl ∧
      S4r.historyStack = [] := by
  have h1 : loadFromUrl W4 S4 = (S4r, true) := by rfl
  have h2 : S4r.currentUrl = S4r.rootCrateUrl := by rfl
  exact ⟨h1, h2, (navigation_at_root_clears_breadcrumbs W4 S4 S4r "x" 0).1 h1 h2⟩

/-! ## C3: state preservation on failed navigation -/

/-- A navigation operation of the app: direct load (`loadFromUrl`),
nested-package open (`handleSubcrateOpen`), back navigation (`goBack`),
breadcrumb click (`goToBreadcrumb`). -/
inductive NavOp where
  | load
  | sub (subId : String)
  | back
  | crumb (i : Nat)

/-- Run one navigation operation against the app state. -/
def runNav (w : World) (s : AppState) : NavOp → AppState × Bool
  | .load => loadFromUrl w s
  | .sub subId => handleSubcrateOpen w s subId
  | .back => goBack w s
  | .crumb i => goToBreadcrumb w s i

theorem subcrateFetch_fail {w : World} {s : AppState} {subBase mfn : String}
    {s' : AppState} {flag : Bool}
    (hst : w.stateless = true) (hfail : ∀ x, ∃ e, w.fetchCrate x = .error e)
    (h : subcrateFetch w s subBase mfn = (s', flag)) :
    flag = false ∧ s'.allEntities = s.allEntities ∧
      s'.linkedDataHints = s.linkedDataHints ∧ s'.currentUrl = s.currentUrl ∧
      s'.baseUrl = s.baseUrl := by
  unfold subcrateFetch at h
  rw [if_pos hst] at h
  rcases hfail (subcrateFetchUrl subBase mfn) with ⟨e, he⟩
  rw [he] at h
  simp only [] at h
  obtain ⟨h1, h2⟩ := Prod.mk.inj h
  subst h1; subst h2
  exact ⟨rfl, rfl, rfl, rfl, rfl⟩

theorem loadFromUrlFetch_fail {w : World} {s : AppState} {u : String} {first : Bool}
    {s' : AppState} {flag : Bool}
    (hst : w.stateless = true) (hfail : ∀ x, ∃ e, w.fetchCrate x = .error e)
    (h : loadFromUrlFetch w s u first = (s', flag)) :
    flag = false ∧ s'.allEntities = s.allEntities ∧
      s'.linkedDataHints = s.linkedDataHints ∧ s'.currentUrl = s.currentUrl ∧
      s'.baseUrl = s.baseUrl := by
  unfold loadFromUrlFetch at h
  rw [if_pos hst] at h
  rcases hfail u with ⟨e, he⟩
  rw [he] at h
  simp only [] at h
  obtain ⟨h1, h2⟩ := Prod.mk.inj h
  subst h1; subst h2
  exact ⟨rfl, rfl, rfl, rfl, rfl⟩

theorem loadFromUrl_fail {w : World} {s : AppState} {s' : AppState} {flag : Bool}
    (hst : w.stateless = true) (hfail : ∀ x, ∃ e, w.fetchCrate x = .error e)
    (h : loadFromUrl w s = (s', flag)) (hcache : s.crateCache = []) :
    flag = false ∧ s'.allEntities = s.allEntities ∧
      s'.linkedDataHints = s.linkedDataHints ∧ s'.currentUrl = s.currentUrl ∧
      s'.baseUrl = s.baseUrl := by
  unfold loadFromUrl at h
  split at h
  · obtain ⟨h1, h2⟩ := Prod.mk.inj h
    subst h1; subst h2
    exact ⟨rfl, rfl, rfl, rfl, rfl⟩
  · simp only [] at h
    split at h
    · rename_i hc
      simp [cacheGet, hcache] at hc
    · have := loadFromUrlFetch_fail hst hfail h
      exact this

theorem handleSubcrateOpen_fail {w : World} {s : AppState} {sub : String}
    {s' : AppState} {flag : Bool}
    (hst : w.stateless = true) (hfail : ∀ x, ∃ e, w.fetchCrate x = .error e)
    (h : handleSubcrateOpen w s sub = (s', flag)) (hcache : s.crateCache = []) :
    flag = false ∧ s'.allEntities = s.allEntities ∧
      s'.linkedDataHints = s.linkedDataHints ∧ s'.currentUrl = s.currentUrl ∧
      s'.baseUrl = s.baseUrl := by
  unfold handleSubcrateOpen at h
  split at h
  · obtain ⟨h1, h2⟩ := Prod.mk.inj h
    subst h1; subst h2
    exact ⟨rfl, rfl, rfl, rfl, rfl⟩
  · simp only [] at h
    split at h
    · rename_i hc
      simp [cacheGet, hcache] at hc
    · have := subcrateFetch_fail hst hfail h
      exact this

theorem goBack_fail {w : World} {s : AppState} {s' : AppState} {flag : Bool}
    (hst : w.stateless = true) (hfail : ∀ x, ∃ e, w.fetchCrate x = .error e)
    (h : goBack w s = (s', flag)) (hcache : s.crateCache = []) :
    flag = false ∧ s'.allEntities = s.allEntities ∧
      s'.linkedDataHints = s.linkedDataHints ∧ s'.currentUrl = s.currentUrl ∧
      s'.baseUrl = s.baseUrl := by
  unfold goBack at h
  split at h
  · obtain ⟨h1, h2⟩ := Prod.mk.inj h
    subst h1; subst h2
    exact ⟨rfl, rfl, rfl, rfl, rfl⟩
  · simp only [] at h
    split at h
    · have := loadFromUrl_fail hst hfail h hcache
      exact this
    · obtain ⟨h1, h2⟩ := Prod.mk.inj h
      subst h1; subst h2
      exact ⟨rfl, rfl, rfl, rfl, rfl⟩

theorem goToBreadcrumb_fail {w : World} {s : AppState} {i : Nat}
    {s' : AppState} {flag : Bool}
    (hst : w.stateless = true) (hfail : ∀ x, ∃ e, w.fetchCrate x = .error e)
    (h : goToBreadcrumb w s i = (s', flag)) (hcache : s.crateCache = []) :
    flag = false ∧ s'.allEntities = s.allEntities ∧
      s'.linkedDataHints = s.linkedDataHints ∧ s'.currentUrl = s.currentUrl ∧
      s'.baseUrl = s.baseUrl := by
  unfold goToBreadcrumb at h
  split at h
  · obtain ⟨h1, h2⟩ := Prod.mk.inj h
    subst h1; subst h2
    exact ⟨rfl, rfl, rfl, rfl, rfl⟩
  · split at h
    · obtain ⟨h1, h2⟩ := Prod.mk.inj h
      subst h1; subst h2
      exact ⟨rfl, rfl, rfl, rfl, rfl⟩
    · simp only [] at h
      have := loadFromUrl_fail hst hfail h hcache
      exact this

/-- **C3.** (amended) For every navigation operation in stateless mode with an
empty crate cache, if every fetch of the target package fails, the operation
reports failure and the previously active state — entity list (and hence the
tree computed from it), link hints, current locator and base location — is
exactly what it was before the operation.  The original claim, covering the
stateful mode as well, is refuted by `nav_fetch_failure_counterexample`:
the stateful nested-open mutates the current locator before the fetch, so a
fetch failure leaves it partially overwritten. -/
theorem nav_fetch_failure_preserves_state (w : World) (s : AppState) (op : NavOp)
    (s' : AppState) (flag : Bool)
    (hst : w.stateless = true)
    (hfail : ∀ x, ∃ e, w.fetchCrate x = .error e)
    (h : runNav w s op = (s', flag)) (hcache : s.crateCache = []) :
    flag = false ∧ s'.allEntities = s.allEntities ∧
      s'.linkedDataHints = s.linkedDataHints ∧ s'.currentUrl = s.currentUrl ∧
      s'.baseUrl = s.baseUrl := by
  cases op with
  | load => exact loadFromUrl_fail hst hfail h hcache
  | sub subId => exact handleSubcrateOpen_fail hst hfail h hcache
  | back => exact goBack_fail hst hfail h hcache
  | crumb i => exact goToBreadcrumb_fail hst hfail h hcache

/-- A stateful world whose metadata fetch always fails. -/
def W3 : World :=
  ⟨false, fun _ => .error "net", fun _ => .ok "C/", fun _ => .error "net",
   fun _ => .ok [], fun _ _ => .ok [], fun _ => .ok (), fun _ => none,
   fun _ => none, fun _ _ => none, fun _ => .ctorThrow⟩

/-- The same failing world in stateless mode. -/
def W3w : World :=
  ⟨true, fun _ => .error "net", fun _ => .ok "C/", fun _ => .error "net",
   fun _ => .ok [], fun _ _ => .ok [], fun _ => .ok (), fun _ => none,
   fun _ => none, fun _ _ => none, fun _ => .ctorThrow⟩

/-- A ready state viewing the root crate `"R/"`. -/
def S3 : AppState :=
  ⟨"", some "R/", [], [], [], "Root", none, none, [], "B/", some "R/", [],
   none, "", ⟨none, []⟩⟩

/-- **C3 counterexample.** In stateful mode, opening a nested package whose
metadata fetch fails leaves the operation failed but the current locator
overwritten: it was `"R/"` before and is `"sub/"` afterwards, so the failed
navigation is not all-or-nothing. -/
theorem nav_fetch_failure_counterexample :
    (runNav W3 S3 (NavOp.sub "sub")).2 = false ∧
      S3.currentUrl = some "R/" ∧
      (runNav W3 S3 (NavOp.sub "sub")).1.currentUrl = some "sub/" :=
  ⟨rfl, rfl, rfl⟩

theorem nav_fetch_failure_preserves_state_witness :
    W3w.stateless = true ∧ S3.crateCache = [] ∧
      ((runNav W3w S3 (NavOp.sub "sub")).2 = false ∧
        (runNav W3w S3 (NavOp.sub "sub")).1.allEntities = S3.allEntities ∧
        (runNav W3w S3 (NavOp.sub "sub")).1.linkedDataHints = S3.linkedDataHints ∧
        (runNav W3w S3 (NavOp.sub "sub")).1.currentUrl = S3.currentUrl ∧
        (runNav W3w S3 (NavOp.sub "sub")).1.baseUrl = S3.baseUrl) :=
  ⟨rfl, rfl, nav_fetch_failure_preserves_state W3w S3 (NavOp.sub "sub") _ _ rfl
    (fun x => ⟨"net", rfl⟩) rfl rfl⟩

/-! ## C5: push-then-back roundtrip -/

theorem truthyOpt_some {u : String} (hu : u ≠ "") : truthyOpt (some u) = some u := by
  simp [truthyOpt, hu]

theorem ensureSlash_ne (x : String) : ensureSlash x ≠ "" := by
  unfold ensureSlash
  split
  · rename_i hx
    intro he
    subst he
    exact absurd hx (by decide)
  · intro he
    have hl := congrArg String.length he
    simp [String.length_append] at hl
    exact absurd hl.2 (by decide)

theorem updateBreadcrumbs_cache (u : Option String) (s : AppState) :
    (updateBreadcrumbsForCrate u s).crateCache = s.crateCache := by
  unfold updateBreadcrumbsForCrate
  rcases truthyOpt u with _ | c <;> rcases truthyOpt s.rootCrateUrl with _ | r <;>
    simp <;> split <;> rfl

theorem updateBreadcrumbs_preserves {u : Option String} {s : AppState} {c r : String}
    (hc : truthyOpt u = some c) (hr : truthyOpt s.rootCrateUrl = some r) (hne : c ≠ r) :
    (updateBreadcrumbsForCrate u s).historyStack = s.historyStack := by
  unfold updateBreadcrumbsForCrate
  rw [hc, hr]
  simp [hne]

theorem processCachedCrate_shape {w : World} {s : AppState} {c : CachedCrate}
    {src : Option String} {s2 : AppState} {f2 : Bool}
    (h : processCachedCrate w s c src false = (s2, f2)) :
    ∃ T : AppState, T.historyStack = s.historyStack ∧ T.currentUrl = src ∧
      T.rootCrateUrl = s.rootCrateUrl ∧ T.crateCache = s.crateCache ∧
      ((f2 = false ∧ s2 = T) ∨ (f2 = true ∧ s2 = updateBreadcrumbsForCrate src T)) := by
  unfold processCachedCrate at h
  split at h
  · obtain ⟨h1, h2⟩ := Prod.mk.inj h
    refine ⟨_, ?_, ?_, ?_, ?_, Or.inl ⟨h2.symm, h1.symm⟩⟩ <;> rfl
  · split at h
    · obtain ⟨h1, h2⟩ := Prod.mk.inj h
      refine ⟨_, ?_, ?_, ?_, ?_, Or.inl ⟨h2.symm, h1.symm⟩⟩ <;> rfl
    · simp only [] at h
      split at h
      · obtain ⟨h1, h2⟩ := Prod.mk.inj h
        refine ⟨_, ?_, ?_, ?_, ?_, Or.inl ⟨h2.symm, h1.symm⟩⟩ <;> rfl
      · obtain ⟨h1, h2⟩ := Prod.mk.inj h
        refine ⟨_, ?_, ?_, ?_, ?_, Or.inr ⟨h2.symm, h1.symm⟩⟩ <;> rfl

theorem finishFreshCrate_shape {w : World} {s : AppState} {json : JsVal}
    {name : String} {src : Option String} {exp : List Entity} {hs : Hints}
    {s2 : AppState} {f2 : Bool}
    (h : finishFreshCrate w s json name src exp hs = (s2, f2)) :
    ∃ T : AppState, T.historyStack = s.historyStack ∧ T.currentUrl = s.currentUrl ∧
      T.rootCrateUrl = s.rootCrateUrl ∧
      (∀ k, (∀ cc, truthyOpt src = some cc → k ≠ cc) →
        List.lookup k T.crateCache = List.lookup k s.crateCache) ∧
      ((f2 = false ∧ s2 = T) ∨ (f2 = true ∧ s2 = updateBreadcrumbsForCrate src T)) := by
  unfold finishFreshCrate at h
  split at h
  · obtain ⟨h1, h2⟩ := Prod.mk.inj h
    refine ⟨_, ?_, ?_, ?_, ?_, Or.inl ⟨h2.symm, h1.symm⟩⟩
    · rfl
    · rfl
    · rfl
    · intro k hk
      rfl
  · repeat' split at h
    all_goals
      simp only [] at h
      obtain ⟨h1, h2⟩ := Prod.mk.inj h
      refine ⟨_, ?_, ?_, ?_, ?_, Or.inr ⟨h2.symm, h1.symm⟩⟩
      · rfl
      · rfl
      · rfl
      · first
          | (intro k hk; rfl)
          | (rename_i u heq
             intro k hk
             have hku : k ≠ u := hk u heq
             simp only [List.lookup]
             rw [show (k == u) = false from beq_eq_false_iff_ne.mpr hku])

theorem processFreshCrate_shape {w : World} {s : AppState} {json : JsVal}
    {name : String} {src : Option String} {s2 : AppState} {f2 : Bool}
    (h : processFreshCrate w s json name src false = (s2, f2)) :
    ∃ T : AppState, T.historyStack = s.historyStack ∧
      (T.currentUrl = s.currentUrl ∨ T.currentUrl = src) ∧
      T.rootCrateUrl = s.rootCrateUrl ∧
      (∀ k, (∀ cc, truthyOpt src = some cc → k ≠ cc) →
        List.lookup k T.crateCache = List.lookup k s.crateCache) ∧
      ((f2 = false ∧ s2 = T) ∨ (f2 = true ∧ s2 = updateBreadcrumbsForCrate src T)) := by
  unfold processFreshCrate at h
  split at h
  · obtain ⟨h1, h2⟩ := Prod.mk.inj h
    refine ⟨_, ?_, Or.inl ?_, ?_, ?_, Or.inl ⟨h2.symm, h1.symm⟩⟩
    · rfl
    · rfl
    · rfl
    · intro k hk
      rfl
  · split at h
    · obtain ⟨h1, h2⟩ := Prod.mk.inj h
      refine ⟨_, ?_, Or.inl ?_, ?_, ?_, Or.inl ⟨h2.symm, h1.symm⟩⟩
      · rfl
      · rfl
      · rfl
      · intro k hk
        rfl
    · split at h
      · obtain ⟨h1, h2⟩ := Prod.mk.inj h
        refine ⟨_, ?_, Or.inl ?_, ?_, ?_, Or.inl ⟨h2.symm, h1.symm⟩⟩
        · rfl
        · rfl
        · rfl
        · intro k hk
          rfl
      · simp only [] at h
        split at h
        · obtain ⟨h1, h2⟩ := Prod.mk.inj h
          refine ⟨_, ?_, Or.inr ?_, ?_, ?_, Or.inl ⟨h2.symm, h1.symm⟩⟩
          · rfl
          · rfl
          · rfl
          · intro k hk
            rfl
        · split at h
          · obtain ⟨T, hT1, hT2, hT3, hT4, hT5⟩ := finishFreshCrate_shape h
            exact ⟨T, hT1, Or.inr hT2, hT3, hT4, hT5⟩
          · split at h
            · obtain ⟨T, hT1, hT2, hT3, hT4, hT5⟩ := finishFreshCrate_shape h
              exact ⟨T, hT1, Or.inr hT2, hT3, hT4, hT5⟩
            · obtain ⟨T, hT1, hT2, hT3, hT4, hT5⟩ := finishFreshCrate_shape h
              exact ⟨T, hT1, Or.inr hT2, hT3, hT4, hT5⟩

theorem processCrateData_shape {w : World} {s : AppState} {json : JsVal}
    {name : String} {src : Option String} {s2 : AppState} {f2 : Bool}
    (h : processCrateData w s json name src false = (s2, f2)) :
    ∃ T : AppState, T.historyStack = s.historyStack ∧
      (T.currentUrl = s.currentUrl ∨ T.currentUrl = src) ∧
      T.rootCrateUrl = s.rootCrateUrl ∧
      (∀ k, (∀ cc, truthyOpt src = some cc → k ≠ cc) →
        List.lookup k T.crateCache = List.lookup k s.crateCache) ∧
      ((f2 = false ∧ s2 = T) ∨ (f2 = true ∧ s2 = updateBreadcrumbsForCrate src T)) := by
  unfold processCrateData at h
  split at h
  · rename_i hc
    simp at hc
  · simp only [] at h
    split at h
    · obtain ⟨T, hT1, hT2, hT3, hT4, hT5⟩ := processCachedCrate_shape h
      refine ⟨T, hT1, Or.inr hT2, hT3, ?_, hT5⟩
      intro k hk
      rw [hT4]
    · exact processFreshCrate_shape h

theorem processCrateData_at_key {w : World} {S : AppState} {json : JsVal}
    {name key : String} {s1 : AppState}
    (hk : key ≠ "")
    (h : processCrateData w S json name (some key) false = (s1, true))
    (hScur : S.currentUrl = some key) :
    s1.rootCrateUrl = S.rootCrateUrl ∧ s1.currentUrl = some key ∧
      (∀ k, k ≠ key → List.lookup k s1.crateCache = List.lookup k S.crateCache) ∧
      (∀ r, truthyOpt S.rootCrateUrl = some r → key ≠ r →
        s1.historyStack = S.historyStack) := by
  obtain ⟨T, hT1, hT2, hT3, hT4, hT5⟩ := processCrateData_shape h
  have htk : truthyOpt (some key) = some key := truthyOpt_some hk
  rcases hT5 with ⟨hf, _⟩ | ⟨_, hs1⟩
  · exact absurd hf (by simp)
  · subst hs1
    refine ⟨?_, ?_, ?_, ?_⟩
    · rw [updateBreadcrumbs_rootCrateUrl, hT3]
    · rw [updateBreadcrumbs_currentUrl]
      rcases hT2 with h2 | h2
      · rw [h2, hScur]
      · rw [h2]
    · intro k hk2
      rw [updateBreadcrumbs_cache]
      refine hT4 k ?_
      intro cc hcc
      rw [htk] at hcc
      injection hcc with hcc
      subst hcc
      exact hk2
    · intro r htr hkr
      rw [updateBreadcrumbs_preserves htk (by rw [hT3]; exact htr) hkr]
      exact hT1

theorem processCrateData_cached_shape {w : World} {s : AppState} {json : JsVal}
    {name u : String} {cu : CachedCrate} {s2 : AppState} {f2 : Bool}
    (hu : u ≠ "")
    (h : processCrateData w s json name (some u) false = (s2, f2))
    (hcacheu : List.lookup u s.crateCache = some cu) :
    ∃ T : AppState, T.historyStack = s.historyStack ∧ T.currentUrl = some u ∧
      T.rootCrateUrl = s.rootCrateUrl ∧ T.crateCache = s.crateCache ∧
      ((f2 = false ∧ s2 = T) ∨ (f2 = true ∧ s2 = updateBreadcrumbsForCrate (some u) T)) := by
  unfold processCrateData at h
  split at h
  · rename_i hc
    simp at hc
  · simp only [] at h
    rw [truthyOpt_some hu] at h
    simp only [] at h
    rw [show cacheGet s u = some cu from hcacheu] at h
    simp only [] at h
    obtain ⟨T, a, b, cc, d, e⟩ := processCachedCrate_shape h
    exact ⟨T, a, b, cc, d, e⟩

theorem subcrateFetch_frame {w : World} {s : AppState} {subBase mfn : String}
    {s1 : AppState} (h : subcrateFetch w s subBase mfn = (s1, true)) :
    s1.rootCrateUrl = s.rootCrateUrl ∧ s1.currentUrl = some (ensureSlash subBase) ∧
      (∀ k, k ≠ ensureSlash subBase →
        List.lookup k s1.crateCache = List.lookup k s.crateCache) ∧
      (∀ r, truthyOpt s.rootCrateUrl = some r → ensureSlash subBase ≠ r →
        s1.historyStack = s.historyStack) ∧
      (∀ c0, List.lookup (ensureSlash subBase) s.crateCache = some c0 →
        s1.crateCache = s.crateCache) := by
  unfold subcrateFetch at h
  split at h
  · split at h
    · exact absurd (congrArg Prod.snd h) (by simp)
    · obtain ⟨a, b, cc, d⟩ := processCrateData_at_key (ensureSlash_ne subBase) h rfl
      refine ⟨a, b, cc, d, ?_⟩
      intro c0 hc0
      obtain ⟨T, _, _, _, dT, e⟩ :=
        processCrateData_cached_shape (ensureSlash_ne subBase) h hc0
      rcases e with ⟨_, hs1⟩ | ⟨_, hs1⟩
      · rw [hs1]
        exact dT
      · rw [hs1, updateBreadcrumbs_cache]
        exact dT
  · simp only [] at h
    split at h
    · exact absurd (congrArg Prod.snd h) (by simp)
    · rename_i r heq
      subst h
      unfold fetchMetadata at heq
      simp only [] at heq
      split at heq
      · exact Except.noConfusion heq
      · rw [Except.ok.injEq] at heq
        obtain ⟨a, b, cc, d⟩ := processCrateData_at_key (ensureSlash_ne subBase) heq rfl
        refine ⟨a, b, cc, d, ?_⟩
        intro c0 hc0
        obtain ⟨T, _, _, _, dT, e⟩ :=
          processCrateData_cached_shape (ensureSlash_ne subBase) heq hc0
        rcases e with ⟨_, hs1⟩ | ⟨_, hs1⟩
        · rw [hs1]
          exact dT
        · rw [hs1, updateBreadcrumbs_cache]
          exact dT

theorem handleSubcrateOpen_frame {w : World} {s : AppState} {sub u : String}
    {s1 : AppState}
    (hcu : truthyOpt s.currentUrl = some u)
    (h : handleSubcrateOpen w s sub = (s1, true)) :
    s1.rootCrateUrl = s.rootCrateUrl ∧
      s1.currentUrl = some (subcrateTargetKey w s.baseUrl sub) ∧
      (∀ k, k ≠ subcrateTargetKey w s.baseUrl sub →
        List.lookup k s1.crateCache = List.lookup k s.crateCache) ∧
      (∀ r, truthyOpt s.rootCrateUrl = some r → subcrateTargetKey w s.baseUrl sub ≠ r →
        s1.historyStack = s.historyStack ++
          [HistoryItem.mk s.currentCrateName (some u)]) ∧
      (∀ c0, List.lookup (subcrateTargetKey w s.baseUrl sub) s.crateCache = some c0 →
        s1.crateCache = s.crateCache) := by
  unfold handleSubcrateOpen at h
  split at h
  · exact absurd (congrArg Prod.snd h) (by simp)
  · simp only [] at h
    rw [hcu] at h
    simp only [] at h
    split at h
    · split at h
      · obtain ⟨a, b, cc, d⟩ :=
          processCrateData_at_key (ensureSlash_ne (resolveSubcrate w s.baseUrl sub).1) h rfl
        refine ⟨a, b, cc, ?_, ?_⟩
        · intro r htr hkr
          rw [d r htr hkr]
        · intro c0 hc0
          obtain ⟨T, _, _, _, dT, e⟩ := processCrateData_cached_shape
            (ensureSlash_ne (resolveSubcrate w s.baseUrl sub).1) h hc0
          rcases e with ⟨_, hs1⟩ | ⟨_, hs1⟩
          · rw [hs1]
            exact dT
          · rw [hs1, updateBreadcrumbs_cache]
            exact dT
      · obtain ⟨a, b, cc, d, eH⟩ := subcrateFetch_frame h
        refine ⟨a, b, cc, ?_, ?_⟩
        · intro r htr hkr
          rw [d r htr hkr]
        · intro c0 hc0
          rw [eH c0 hc0]
    · obtain ⟨a, b, cc, d, eH⟩ := subcrateFetch_frame h
      refine ⟨a, b, cc, ?_, ?_⟩
      · intro r htr hkr
        rw [d r htr hkr]
      · intro c0 hc0
        rw [eH c0 hc0]

theorem goBack_restore {w : World} {s1 : AppState} {st0 : List HistoryItem}
    {nm u r : String} {cu : CachedCrate} {s2 : AppState} {f2 : Bool}
    (hstack1 : s1.historyStack = st0 ++ [HistoryItem.mk nm (some u)])
    (hu : u ≠ "") (hroot1 : s1.rootCrateUrl = some r) (hr : r ≠ "")
    (hcacheu : List.lookup u s1.crateCache = some cu)
    (hjson : truthy cu.json = true)
    (hhome : u = r → st0 = [])
    (h : goBack w s1 = (s2, f2)) :
    s2.currentUrl = some u ∧ s2.historyStack.length = st0.length := by
  unfold goBack at h
  rw [hstack1] at h
  rw [List.getLast?_concat] at h
  simp only [] at h
  rw [truthyOpt_some hu] at h
  simp only [] at h
  rw [List.dropLast_concat] at h
  unfold loadFromUrl at h
  split at h
  · rename_i he
    exact absurd he hu
  · simp only [] at h
    split at h
    · rename_i c hcg
      have hcc : c = cu := by
        have hl : List.lookup u s1.crateCache = some c := by
          simpa [cacheGet] using hcg
        rw [hcacheu] at hl
        injection hl with hl
        exact hl.symm
      subst hcc
      split at h
      · rw [show (decide (s1.rootCrateUrl = none)) = false from by rw [hroot1]; rfl] at h
        obtain ⟨T, a, b, cc, _, e⟩ := processCrateData_cached_shape hu h hcacheu
        rcases e with ⟨_, hs2⟩ | ⟨_, hs2⟩
        · subst hs2
          exact ⟨b, by rw [a]⟩
        · subst hs2
          constructor
          · rw [updateBreadcrumbs_currentUrl, b]
          · by_cases hur : u = r
            · have h0 : st0 = [] := hhome hur
              have hTr : (some u : Option String) = T.rootCrateUrl := by
                rw [cc, hroot1, hur]
              rw [updateBreadcrumbs_clears hTr, h0]
            · have htr : truthyOpt T.rootCrateUrl = some r := by
                rw [cc, hroot1]
                exact truthyOpt_some hr
              rw [updateBreadcrumbs_preserves (truthyOpt_some hu) htr hur, a]
      · rename_i hnt
        exact absurd hjson hnt
    · rename_i hcg
      have hl : List.lookup u s1.crateCache = none := by
        simpa [cacheGet] using hcg
      rw [hcacheu] at hl
      exact Option.noConfusion hl

/-- **C5.** (amended) `handleSubcrateOpen` pushes the currently active
`(displayName, locator)` pair before the locator changes, and a successful
nested open followed by `goBack` restores the current locator and the
breadcrumb-stack length — provided the nested target differs from the
recorded root locator, the active locator is cached, and the home invariant
(at root ⇒ empty stack) held beforehand.  The original unconditional claim
is refuted by `subOpen_goBack_counterexample`: when the nested target equals
the recorded root, the successful open clears the stack, so the `goBack` is
a no-op and the locator is not restored. -/
theorem subOpen_goBack_roundtrip (w : World) (s s1 s2 : AppState)
    (sub u r : String) (cu : CachedCrate) (f2 : Bool)
    (hcur : s.currentUrl = some u) (hu : u ≠ "")
    (hroot : s.rootCrateUrl = some r) (hr : r ≠ "")
    (hhome : u = r → s.historyStack = [])
    (hkr : subcrateTargetKey w s.baseUrl sub ≠ r)
    (hcacheu : List.lookup u s.crateCache = some cu)
    (hjson : truthy cu.json = true)
    (hopen : handleSubcrateOpen w s sub = (s1, true))
    (hback : goBack w s1 = (s2, f2)) :
    s1.historyStack = s.historyStack ++
        [HistoryItem.mk s.currentCrateName (some u)] ∧
      s2.currentUrl = s.currentUrl ∧
      s2.historyStack.length = s.historyStack.length := by
  have hcu : truthyOpt s.currentUrl = some u := by
    rw [hcur]
    exact truthyOpt_some hu
  obtain ⟨hroot1, hcur1, hcache1, hstack1, hcachehit⟩ :=
    handleSubcrateOpen_frame hcu hopen
  have htr : truthyOpt s.rootCrateUrl = some r := by
    rw [hroot]
    exact truthyOpt_some hr
  have hstack1' := hstack1 r htr hkr
  have hcacheu1 : List.lookup u s1.crateCache = some cu := by
    by_cases hku : subcrateTargetKey w s.baseUrl sub = u
    · rw [hcachehit cu (by rw [hku]; exact hcacheu)]
      exact hcacheu
    · rw [hcache1 u (fun he => hku he.symm)]
      exact hcacheu
  have hroot1' : s1.rootCrateUrl = some r := by rw [hroot1, hroot]
  obtain ⟨hc2, hl2⟩ :=
    goBack_restore hstack1' hu hroot1' hr hcacheu1 hjson hhome hback
  exact ⟨hstack1', by rw [hc2, hcur], hl2⟩

/-- The fully processed cache entry for the locator `"U/"` in the witness
scenario. -/
def CU : CachedCrate :=
  ⟨docR, [JsVal.obj [("@id", JsVal.str "./"), ("name", JsVal.str "Root")]],
   [], [], "Root"⟩

/-- A stateless world serving `docR` for every fetch. -/
def W5 : World :=
  ⟨true, fun _ => .ok docR, fun _ => .httpError 500 "e", fun _ => .error "e",
   fun _ => .ok [], fun _ _ => .ok [], fun _ => .ok (), fun _ => none,
   fun _ => none, fun _ _ => none, fun _ => .ctorThrow⟩

/-- Counterexample state: the recorded root locator equals the nested
target `"sub/"`, and one breadcrumb is on the stack. -/
def S5 : AppState :=
  ⟨"", some "R/", [], [], [], "Cur", none, none, [HistoryItem.mk "X" (some "X/")],
   "B/", some "sub/", [], none, "", ⟨none, []⟩⟩

/-- Witness state: nested target `"sub/"` differs from the recorded root
`"RT/"` and from the active locator `"U/"`, which is cached. -/
def S5w : AppState :=
  ⟨"", some "U/", [], [], [], "Cur", none, none, [], "B/", some "RT/",
   [("U/", CU)], none, "", ⟨none, []⟩⟩

/-- **C5 counterexample.** Opening a nested package whose target equals the
recorded root locator succeeds but clears the breadcrumb stack, so the
following `goBack` is a no-op: the locator stays `"sub/"` instead of being
restored to `"R/"`, and the stack length drops from 1 to 0. -/
theorem subOpen_goBack_counterexample :
    (handleSubcrateOpen W5 S5 "sub").2 = true ∧
      S5.currentUrl = some "R/" ∧ S5.historyStack.length = 1 ∧
      (goBack W5 (handleSubcrateOpen W5 S5 "sub").1).2 = false ∧
      (goBack W5 (handleSubcrateOpen W5 S5 "sub").1).1.currentUrl = some "sub/" ∧
      (goBack W5 (handleSubcrateOpen W5 S5 "sub").1).1.historyStack.length = 0 :=
  ⟨rfl, rfl, rfl, rfl, rfl, rfl⟩

theorem subOpen_goBack_roundtrip_witness :
    handleSubcrateOpen W5 S5w "sub" = ((handleSubcrateOpen W5 S5w "sub").1, true) ∧
      ((handleSubcrateOpen W5 S5w "sub").1.historyStack =
          S5w.historyStack ++ [HistoryItem.mk S5w.currentCrateName (some "U/")] ∧
        (goBack W5 (handleSubcrateOpen W5 S5w "sub").1).1.currentUrl = S5w.currentUrl ∧
        (goBack W5 (handleSubcrateOpen W5 S5w "sub").1).1.historyStack.length =
          S5w.historyStack.length) :=
  ⟨rfl,
   subOpen_goBack_roundtrip W5 S5w (handleSubcrateOpen W5 S5w "sub").1
     (goBack W5 (handleSubcrateOpen W5 S5w "sub").1).1 "sub" "U/" "RT/" CU
     (goBack W5 (handleSubcrateOpen W5 S5w "sub").1).2
     rfl (by decide) rfl (by decide) (fun hh => absurd hh (by decide))
     (by decide) rfl rfl rfl rfl⟩
